import Mathlib

/- Verification development for gen_pve_links_args.py, a generator of
   Proxmox/QEMU UDP-netdev arguments for point-to-point VM links.

   Shallow embedding: every Python function of the source is translated to an
   executable Lean definition.  Host introspection (reading a VM config file,
   invoking qm showcmd) is modelled as pure functions over the text that those
   external sources would provide.  Machine-level formatting (str(), f-strings,
   int(), %02x) is modelled character by character. -/

namespace PveLinks

/- Python str(n) for a non-negative int n: minimal decimal digits.
   Fuel-based recursion so the kernel can evaluate it. -/
def decCharsAux : Nat → Nat → List Char
  | 0, _ => []
  | fuel + 1, n =>
    if n < 10 then [Char.ofNat (48 + n)]
    else decCharsAux fuel (n / 10) ++ [Char.ofNat (48 + n % 10)]

def decChars (n : Nat) : List Char := decCharsAux (n + 1) n

def decStr (n : Nat) : String := String.mk (decChars n)

/- Python "%x" formatting: minimal lowercase hex digits. -/
def hexDigit (n : Nat) : Char :=
  if n < 10 then Char.ofNat (48 + n) else Char.ofNat (87 + n)

def hexCharsAux : Nat → Nat → List Char
  | 0, _ => []
  | fuel + 1, n =>
    if n < 16 then [hexDigit n]
    else hexCharsAux fuel (n / 16) ++ [hexDigit (n % 16)]

def hexChars (n : Nat) : List Char := hexCharsAux (n + 1) n

def hexStr (n : Nat) : String := String.mk (hexChars n)

/- Python "%02x" formatting: hex, zero-padded to width two. -/
def hex02 (n : Nat) : String :=
  String.mk (if (hexChars n).length < 2 then '0' :: hexChars n else hexChars n)

/- Python int(s) on a string of decimal digits. -/
def decVal (cs : List Char) : Nat :=
  cs.foldl (fun n c => n * 10 + (c.toNat - 48)) 0

def int_of_decimal (s : String) : Nat := decVal s.data

/- Python int(s, 16) on a string of lowercase hex digits. -/
def hexDigitVal (c : Char) : Nat :=
  if c.toNat ≥ 97 then c.toNat - 87 else c.toNat - 48

def hexVal (cs : List Char) : Nat :=
  cs.foldl (fun n c => n * 16 + hexDigitVal c) 0

/- ---------- basic lemmas about the digit machinery ---------- -/

theorem decCharsAux_fuel : ∀ n f g, n < f → n < g → decCharsAux f n = decCharsAux g n := by
  intro n
  induction n using Nat.strong_induction_on with
  | _ n ih =>
    intro f g hf hg
    match f, g with
    | f + 1, g + 1 =>
      simp only [decCharsAux]
      split
      · rfl
      · rename_i h
        have h10 : 10 ≤ n := Nat.le_of_not_lt h
        have hlt : n / 10 < n := Nat.div_lt_self (by omega) (by omega)
        rw [ih (n / 10) hlt f g (by omega) (by omega)]

theorem decChars_eq (n : Nat) :
    decChars n = if n < 10 then [Char.ofNat (48 + n)]
                 else decChars (n / 10) ++ [Char.ofNat (48 + n % 10)] := by
  show decCharsAux (n + 1) n = _
  rw [decCharsAux]
  split
  · rfl
  · rename_i h
    have h10 : 10 ≤ n := Nat.le_of_not_lt h
    have hlt : n / 10 < n := Nat.div_lt_self (by omega) (by omega)
    rw [decCharsAux_fuel (n / 10) n (n / 10 + 1) (by omega) (by omega)]
    rfl

theorem hexCharsAux_fuel : ∀ n f g, n < f → n < g → hexCharsAux f n = hexCharsAux g n := by
  intro n
  induction n using Nat.strong_induction_on with
  | _ n ih =>
    intro f g hf hg
    match f, g with
    | f + 1, g + 1 =>
      simp only [hexCharsAux]
      split
      · rfl
      · rename_i h
        have h16 : 16 ≤ n := Nat.le_of_not_lt h
        have hlt : n / 16 < n := Nat.div_lt_self (by omega) (by omega)
        rw [ih (n / 16) hlt f g (by omega) (by omega)]

theorem hexChars_eq (n : Nat) :
    hexChars n = if n < 16 then [hexDigit n]
                 else hexChars (n / 16) ++ [hexDigit (n % 16)] := by
  show hexCharsAux (n + 1) n = _
  rw [hexCharsAux]
  split
  · rfl
  · rename_i h
    have h16 : 16 ≤ n := Nat.le_of_not_lt h
    have hlt : n / 16 < n := Nat.div_lt_self (by omega) (by omega)
    rw [hexCharsAux_fuel (n / 16) n (n / 16 + 1) (by omega) (by omega)]
    rfl

theorem digit_toNat : ∀ d, d < 10 → (Char.ofNat (48 + d)).toNat = 48 + d := by decide

theorem decVal_foldl (a : Nat) (cs : List Char) :
    cs.foldl (fun n c => n * 10 + (c.toNat - 48)) a = a * 10 ^ cs.length + decVal cs := by
  induction cs generalizing a with
  | nil => simp [decVal]
  | cons c cs ih =>
    simp only [List.foldl_cons, List.length_cons, decVal] at *
    rw [ih, ih (0 * 10 + (c.toNat - 48))]
    ring

theorem decVal_append (l m : List Char) :
    decVal (l ++ m) = decVal l * 10 ^ m.length + decVal m := by
  simp only [decVal, List.foldl_append]
  rw [decVal_foldl]
  rfl

theorem decVal_decChars : ∀ n, decVal (decChars n) = n := by
  intro n
  induction n using Nat.strong_induction_on with
  | _ n ih =>
    rw [decChars_eq]
    split
    · rename_i h
      simp [decVal, digit_toNat n h]
    · rename_i h
      have h10 : 10 ≤ n := Nat.le_of_not_lt h
      rw [decVal_append, ih (n / 10) (Nat.div_lt_self (by omega) (by omega))]
      simp [decVal, digit_toNat (n % 10) (Nat.mod_lt _ (by omega))]
      omega

theorem decChars_lt_pow : ∀ n, n < 10 ^ (decChars n).length := by
  intro n
  induction n using Nat.strong_induction_on with
  | _ n ih =>
    rw [decChars_eq]
    split
    · rename_i h
      simpa using h
    · rename_i h
      have h10 : 10 ≤ n := Nat.le_of_not_lt h
      have := ih (n / 10) (Nat.div_lt_self (by omega) (by omega))
      simp only [List.length_append, List.length_cons, List.length_nil]
      have : n < 10 ^ ((decChars (n / 10)).length + 1) := by
        rw [pow_succ]
        calc n < (n / 10 + 1) * 10 := by omega
        _ ≤ 10 ^ (decChars (n / 10)).length * 10 := by
              apply Nat.mul_le_mul_right
              omega
      simpa using this

theorem decChars_length_pos (n : Nat) : 0 < (decChars n).length := by
  rw [decChars_eq]
  split <;> simp

theorem decChars_len_le : ∀ n m, n ≤ m → (decChars n).length ≤ (decChars m).length := by
  intro n
  induction n using Nat.strong_induction_on with
  | _ n ih =>
    intro m hnm
    rw [decChars_eq n, decChars_eq m]
    by_cases hn : n < 10
    · by_cases hm : m < 10
      · simp [hn, hm]
      · simp only [hn, if_true, hm, if_false, List.length_append]
        have := decChars_length_pos (m / 10)
        simp only [List.length_cons, List.length_nil]
        omega
    · have hm : ¬ m < 10 := by omega
      simp only [hn, if_false, hm, List.length_append, List.length_cons, List.length_nil]
      have := ih (n / 10) (Nat.div_lt_self (by omega) (by omega)) (m / 10) (by omega)
      omega

theorem string_mk_append (a b : List Char) : String.mk a ++ String.mk b = String.mk (a ++ b) := rfl

theorem string_data_append (s t : String) : (s ++ t).data = s.data ++ t.data := by
  cases s
  cases t
  rfl

/- ---------- decimal concatenation (the UDP port encoding) ---------- -/

/- port = int(f"{d}{vmid}{eth}"), as a value: parse the concatenated digits. -/
def port_value (d vm eth : Nat) : Nat :=
  int_of_decimal (decStr d ++ decStr vm ++ decStr eth)

theorem port_value_eq (d vm eth : Nat) :
    port_value d vm eth = decVal (decChars d ++ (decChars vm ++ decChars eth)) := by
  show decVal (decStr d ++ decStr vm ++ decStr eth).data = _
  rw [string_data_append, string_data_append]
  simp [decStr, List.append_assoc]

theorem dec_scale_inj (d A B vm vm2 : Nat) (hA : vm < A) (h2 : vm2 < B)
    (hAB : 10 * A ≤ B) (h : d * A + vm = d * B + vm2) : d = 0 := by
  by_contra hd
  have hd1 : 1 ≤ d := Nat.one_le_iff_ne_zero.mpr hd
  have h1 : d * A + vm < (d + 1) * A := by
    have := Nat.add_lt_add_left hA (d * A)
    calc d * A + vm < d * A + A := this
    _ = (d + 1) * A := by ring
  have h2 : (d + 1) * A ≤ d * (10 * A) := by
    have : d + 1 ≤ 10 * d := by omega
    calc (d + 1) * A ≤ 10 * d * A := Nat.mul_le_mul_right A this
    _ = d * (10 * A) := by ring
  have h3 : d * (10 * A) ≤ d * B := Nat.mul_le_mul_left d hAB
  omega

theorem dec_concat_inj (d vm eth vm2 eth2 : Nat) (he : eth < 10) (he2 : eth2 < 10)
    (h : decVal (decChars d ++ (decChars vm ++ decChars eth)) =
         decVal (decChars d ++ (decChars vm2 ++ decChars eth2))) :
    vm = vm2 ∧ eth = eth2 := by
  have heth : decChars eth = [Char.ofNat (48 + eth)] := by rw [decChars_eq]; simp [he]
  have heth2 : decChars eth2 = [Char.ofNat (48 + eth2)] := by rw [decChars_eq]; simp [he2]
  have hval : ∀ v e, e < 10 → decChars e = [Char.ofNat (48 + e)] →
      decVal (decChars d ++ (decChars v ++ decChars e)) =
      d * (10 ^ ((decChars v).length + 1)) + (v * 10 + e) := by
    intro v e hee hde
    rw [decVal_append, decVal_append, decVal_decChars, decVal_decChars, hde]
    have : decVal [Char.ofNat (48 + e)] = e := by
      simp [decVal, digit_toNat e hee]
    rw [this]
    simp only [List.length_append, List.length_cons, List.length_nil, pow_succ]
    ring
  rw [hval vm eth he heth, hval vm2 eth2 he2 heth2] at h
  set L := (decChars vm).length with hL
  set M := (decChars vm2).length with hM
  have hvmlt : vm < 10 ^ L := decChars_lt_pow vm
  have hvm2lt : vm2 < 10 ^ M := decChars_lt_pow vm2
  have key : vm * 10 + eth = vm2 * 10 + eth2 := by
    rcases Nat.lt_trichotomy L M with hlt | heq | hgt
    · have hpw : 10 * 10 ^ (L + 1) ≤ 10 ^ (M + 1) := by
        rw [← pow_succ']
        exact Nat.pow_le_pow_right (by omega) (by omega)
      have h0 : d = 0 := by
        apply dec_scale_inj d (10 ^ (L + 1)) (10 ^ (M + 1)) (vm * 10 + eth) (vm2 * 10 + eth2)
          _ _ hpw h
        · have : vm * 10 + eth < (vm + 1) * 10 := by omega
          calc vm * 10 + eth < (vm + 1) * 10 := this
          _ ≤ 10 ^ L * 10 := Nat.mul_le_mul_right 10 (by omega)
          _ = 10 ^ (L + 1) := (pow_succ 10 L).symm
        · calc vm2 * 10 + eth2 < (vm2 + 1) * 10 := by omega
          _ ≤ 10 ^ M * 10 := Nat.mul_le_mul_right 10 (by omega)
          _ = 10 ^ (M + 1) := (pow_succ 10 M).symm
      rw [h0] at h
      simpa using h
    · rw [heq] at h
      exact Nat.add_left_cancel h
    · have hpw : 10 * 10 ^ (M + 1) ≤ 10 ^ (L + 1) := by
        rw [← pow_succ']
        exact Nat.pow_le_pow_right (by omega) (by omega)
      have h0 : d = 0 := by
        apply dec_scale_inj d (10 ^ (M + 1)) (10 ^ (L + 1)) (vm2 * 10 + eth2) (vm * 10 + eth)
          _ _ hpw h.symm
        · calc vm2 * 10 + eth2 < (vm2 + 1) * 10 := by omega
          _ ≤ 10 ^ M * 10 := Nat.mul_le_mul_right 10 (by omega)
          _ = 10 ^ (M + 1) := (pow_succ 10 M).symm
        · calc vm * 10 + eth < (vm + 1) * 10 := by omega
          _ ≤ 10 ^ L * 10 := Nat.mul_le_mul_right 10 (by omega)
          _ = 10 ^ (L + 1) := (pow_succ 10 L).symm
      rw [h0] at h
      simpa using h
  omega

theorem port_value_inj (d vm eth vm2 eth2 : Nat) (he : eth ≤ 9) (he2 : eth2 ≤ 9)
    (h : port_value d vm eth = port_value d vm2 eth2) : vm = vm2 ∧ eth = eth2 := by
  rw [port_value_eq, port_value_eq] at h
  exact dec_concat_inj d vm eth vm2 eth2 (by omega) (by omega) h

/- ---------- hex formatting lemmas (MAC rendering) ---------- -/

theorem hexDigit_inj : ∀ a, a < 16 → ∀ b, b < 16 → hexDigit a = hexDigit b → a = b := by decide

theorem hex02_data (n : Nat) (h : n < 256) :
    (hex02 n).data = [hexDigit (n / 16), hexDigit (n % 16)] := by
  unfold hex02
  by_cases h16 : n < 16
  · have : hexChars n = [hexDigit n] := by rw [hexChars_eq]; simp [h16]
    rw [this]
    have h0 : n / 16 = 0 := Nat.div_eq_of_lt h16
    have hn : n % 16 = n := Nat.mod_eq_of_lt h16
    simp [h0, hn, hexDigit]
  · have hq : n / 16 < 16 := by omega
    have : hexChars n = [hexDigit (n / 16), hexDigit (n % 16)] := by
      rw [hexChars_eq]
      simp only [h16, if_false]
      rw [hexChars_eq]
      simp [hq]
    rw [this]
    simp

theorem hex02_inj (a b : Nat) (ha : a < 256) (hb : b < 256) (h : hex02 a = hex02 b) :
    a = b := by
  have hd := congrArg String.data h
  rw [hex02_data a ha, hex02_data b hb] at hd
  simp only [List.cons.injEq, and_true] at hd
  have h1 := hexDigit_inj (a / 16) (by omega) (b / 16) (by omega) hd.1
  have h2 := hexDigit_inj (a % 16) (by omega) (b % 16) (by omega) hd.2
  omega

/- ---------- gen_mac (source lines 37-39) ---------- -/

/- gen_mac(mac_prefix, vmid, iface_index):
   f"{b1:02x}:{b2:02x}:{b3:02x}:{(vmid >> 8) & 0xff:02x}:{vmid & 0xff:02x}:{iface_index & 0xff:02x}" -/
def gen_mac (mp : Nat × Nat × Nat) (vmid : Nat) (iface_index : Nat) : String :=
  hex02 mp.1 ++ (":") ++ hex02 mp.2.1 ++ (":") ++ hex02 mp.2.2 ++ (":") ++
  hex02 ((vmid >>> 8) &&& 0xff) ++ (":") ++ hex02 (vmid &&& 0xff) ++ (":") ++
  hex02 (iface_index &&& 0xff)

theorem and_255_eq_mod (x : Nat) : x &&& 255 = x % 256 := by
  have h := Nat.and_pow_two_sub_one_eq_mod x 8
  norm_num at h
  exact h

theorem shiftRight8_eq_div (x : Nat) : x >>> 8 = x / 256 := by
  rw [Nat.shiftRight_eq_div_pow]

theorem and_255_lt (x : Nat) : x &&& 255 < 256 := by
  rw [and_255_eq_mod]
  omega

theorem hex02_len (n : Nat) (h : n < 256) : (hex02 n).data.length = 2 := by
  rw [hex02_data n h]
  rfl

theorem gen_mac_inj (mp : Nat × Nat × Nat) (vm ei vm2 ei2 : Nat)
    (h : gen_mac mp vm ei = gen_mac mp vm2 ei2) :
    vm % 65536 = vm2 % 65536 ∧ ei % 256 = ei2 % 256 := by
  have hd := congrArg String.data h
  unfold gen_mac at hd
  simp only [string_data_append, List.append_assoc] at hd
  replace hd := List.append_cancel_left hd
  replace hd := List.append_cancel_left hd
  replace hd := List.append_cancel_left hd
  replace hd := List.append_cancel_left hd
  replace hd := List.append_cancel_left hd
  replace hd := List.append_cancel_left hd
  have hA := List.append_inj_left hd
    (by rw [hex02_len _ (and_255_lt _), hex02_len _ (and_255_lt _)])
  have hrest := List.append_inj_right hd
    (by rw [hex02_len _ (and_255_lt _), hex02_len _ (and_255_lt _)])
  replace hrest := List.append_cancel_left hrest
  have hB := List.append_inj_left hrest
    (by rw [hex02_len _ (and_255_lt _), hex02_len _ (and_255_lt _)])
  have hrest2 := List.append_inj_right hrest
    (by rw [hex02_len _ (and_255_lt _), hex02_len _ (and_255_lt _)])
  replace hrest2 := List.append_cancel_left hrest2
  have hC : hex02 (ei &&& 255) = hex02 (ei2 &&& 255) := by
    apply congrArg String.mk at hrest2
    simpa using hrest2
  have e1 : (vm >>> 8) &&& 255 = (vm2 >>> 8) &&& 255 := by
    apply hex02_inj _ _ (and_255_lt _) (and_255_lt _)
    apply congrArg String.mk at hA
    simpa using hA
  have e2 : vm &&& 255 = vm2 &&& 255 := by
    apply hex02_inj _ _ (and_255_lt _) (and_255_lt _)
    apply congrArg String.mk at hB
    simpa using hB
  have e3 : ei &&& 255 = ei2 &&& 255 := hex02_inj _ _ (and_255_lt _) (and_255_lt _) hC
  rw [and_255_eq_mod, shiftRight8_eq_div, and_255_eq_mod, shiftRight8_eq_div] at e1
  rw [and_255_eq_mod, and_255_eq_mod] at e2
  rw [and_255_eq_mod, and_255_eq_mod] at e3
  omega

theorem gen_mac_truncate (mp : Nat × Nat × Nat) (vm ei : Nat) :
    gen_mac mp vm ei = gen_mac mp (vm % 65536) (ei % 256) := by
  unfold gen_mac
  have e1 : (vm % 65536) >>> 8 &&& 255 = vm >>> 8 &&& 255 := by
    rw [and_255_eq_mod, shiftRight8_eq_div, and_255_eq_mod, shiftRight8_eq_div]
    omega
  have e2 : vm % 65536 &&& 255 = vm &&& 255 := by
    rw [and_255_eq_mod, and_255_eq_mod]
    omega
  have e3 : ei % 256 &&& 255 = ei &&& 255 := by
    rw [and_255_eq_mod, and_255_eq_mod]
    omega
  rw [e1, e2, e3]

/- ---------- parse_mac_prefix (source lines 22-35) ---------- -/

/- str.split(':'), on the character list (keeps empty groups, like Python). -/
def splitCols (cs : List Char) : List (List Char) :=
  cs.foldr
    (fun c acc =>
      match acc with
      | g :: gs => if c = ':' then [] :: g :: gs else (c :: g) :: gs
      | [] => [[c]])
    [[]]

/- int(p, 16) on a plain lowercase hex-digit string; none models ValueError. -/
def parseHexChars (cs : List Char) : Option Nat :=
  if !cs.isEmpty && cs.all (fun c => c.isDigit || (97 ≤ c.toNat && c.toNat ≤ 102)) then
    some (hexVal cs)
  else none

/- parse_mac_prefix: lower-case, split on ':', require 3 hex bytes in range,
   then set the locally-administered bit and clear the multicast bit of byte 0.
   none models the SystemExit paths. -/
def parse_mac_prefix (pref : String) : Option (Nat × Nat × Nat) :=
  match (splitCols (pref.data.map Char.toLower)).map parseHexChars with
  | [some v1, some v2, some v3] =>
    if v1 ≤ 255 ∧ v2 ≤ 255 ∧ v3 ≤ 255 then
      some ((v1 ||| 0x02) &&& 0xfe, v2, v3)
    else none
  | _ => none

/- str(n)[0], as a digit value: the leading digit of udp_port_base. -/
def lead_digit (n : Nat) : Nat := ((decChars n).headD '0').toNat - 48

/- ---------- engine failure modes (SystemExit reasons) ---------- -/

instance exceptDecEq {ε α : Type} [DecidableEq ε] [DecidableEq α] :
    DecidableEq (Except ε α) := fun x y =>
  match x, y with
  | .ok a, .ok b =>
    if h : a = b then isTrue (by rw [h]) else isFalse (by intro hh; cases hh; exact h rfl)
  | .error a, .error b =>
    if h : a = b then isTrue (by rw [h]) else isFalse (by intro hh; cases hh; exact h rfl)
  | .ok _, .error _ => isFalse (by intro hh; cases hh)
  | .error _, .ok _ => isFalse (by intro hh; cases hh)

inductive EngErr where
  | rangeVmEth : Nat → Nat → EngErr
  | portOutOfRange : Nat → EngErr
  | portCollision : Nat → Nat → Nat → Nat → Nat → EngErr
  | dupEndpoint : Nat → Nat → EngErr
  | slotExhaustion : Nat → EngErr
deriving DecidableEq, Repr

/- Both alloc_port SystemExits are the spec's RangeError. -/
def EngErr.isRangeError : EngErr → Bool
  | .rangeVmEth _ _ => true
  | .portOutOfRange _ => true
  | _ => false

def EngErr.isDupError : EngErr → Bool
  | .dupEndpoint _ _ => true
  | _ => false

/- ---------- alloc_port (source lines 183-193) ---------- -/

/- used_ports dict: association list, newest binding first. -/
def lookup_port (used : List (Nat × (Nat × Nat))) (p : Nat) : Option (Nat × Nat) :=
  match used.find? (fun e => e.1 == p) with
  | some e => some e.2
  | none => none

def alloc_port (d : Nat) (used : List (Nat × (Nat × Nat))) (vmid eth_index : Nat) :
    Except EngErr (Nat × List (Nat × (Nat × Nat))) :=
  if vmid > 999 ∨ eth_index > 9 then .error (.rangeVmEth vmid eth_index)
  else if port_value d vmid eth_index > 65535 then
    .error (.portOutOfRange (port_value d vmid eth_index))
  else
    match lookup_port used (port_value d vmid eth_index) with
    | some prev =>
      if prev ≠ (vmid, eth_index) then
        .error (.portCollision (port_value d vmid eth_index) vmid eth_index prev.1 prev.2)
      else .ok (port_value d vmid eth_index, (port_value d vmid eth_index, (vmid, eth_index)) :: used)
    | none => .ok (port_value d vmid eth_index, (port_value d vmid eth_index, (vmid, eth_index)) :: used)

/- ---------- alloc_pci (source lines 158-175) ---------- -/

/- State for one VM: pci_used[vm] as a list-set, highest_nic_slot[vm] (-1 = none).
   none models the SlotExhaustion SystemExit. -/

/- The upward scan of the next_highest strategy (start = max(highest+1, 0x02),
   guarded by start < 0x1e as in the source). -/
def pci_upward_scan (strat : String) (used : List Nat) (highest : Int) : Option Nat :=
  if strat = "next_highest" then
    if (max (highest + 1) 2).toNat < 0x1e then
      (List.range' (max (highest + 1) 2).toNat
        (0x1e - (max (highest + 1) 2).toNat)).find? (fun a => !used.contains a)
    else none
  else none

def alloc_pci (strat : String) (used : List Nat) (highest : Int) :
    Option (Nat × List Nat × Int) :=
  match pci_upward_scan strat used highest with
  | some addr => some (addr, addr :: used, max highest (addr : Int))
  | none =>
    match (List.range' 0x02 0x1c).find? (fun a => !used.contains a) with
    | some addr => some (addr, addr :: used, max highest (addr : Int))
    | none => none

/- ---------- host state reader (source lines 69-122) ----------
   IO is modelled as pure functions over the text the host would provide. -/

/- str.strip() model: drop ASCII whitespace at both ends. -/
def stripChars (cs : List Char) : List Char :=
  ((cs.dropWhile Char.isWhitespace).reverse.dropWhile Char.isWhitespace).reverse

/- str.splitlines() model: split on newline. -/
def splitLines (cs : List Char) : List (List Char) :=
  cs.foldr
    (fun c acc =>
      match acc with
      | g :: gs => if c = '\n' then [] :: g :: gs else (c :: g) :: gs
      | [] => [[c]])
    [[]]

/- NET_LINE_RE = ^net(\d+):, applied to line.strip(). -/
def netLineIndex : List Char → Option Nat := fun line =>
  match stripChars line with
  | 'n' :: 'e' :: 't' :: rest =>
    let ds := rest.takeWhile Char.isDigit
    if ds.isEmpty then none
    else
      match rest.drop ds.length with
      | ':' :: _ => some (decVal ds)
      | _ => none
  | _ => none

/- highest_existing_net_index: none models a missing config file (and the
   except-path of the source, both of which give -1). -/
def highest_existing_net_index (conf : Option String) : Int :=
  match conf with
  | none => -1
  | some txt =>
    ((splitLines txt.data).filterMap netLineIndex).foldl
      (fun hi idx => if (idx : Int) > hi then (idx : Int) else hi) (-1)

def isHexDigitChar (c : Char) : Bool :=
  c.isDigit || (97 ≤ c.toNat && c.toNat ≤ 102) || (65 ≤ c.toNat && c.toNat ≤ 70)

/- PCI_ADDR_RE finditer: every ",addr=0x<hex>" occurrence.  Fuel recursion so
   the kernel can evaluate; fuel = length of the text suffices. -/
def scanPciAddrsAux : Nat → List Char → List Nat
  | 0, _ => []
  | fuel + 1, cs =>
    match cs with
    | [] => []
    | ',' :: 'a' :: 'd' :: 'd' :: 'r' :: '=' :: '0' :: 'x' :: tail =>
      let ds := tail.takeWhile isHexDigitChar
      if ds.isEmpty then scanPciAddrsAux fuel ('a' :: 'd' :: 'd' :: 'r' :: '=' :: '0' :: 'x' :: tail)
      else hexVal ds :: scanPciAddrsAux fuel (tail.drop ds.length)
    | _ :: rest => scanPciAddrsAux fuel rest

def scanPciAddrs (cs : List Char) : List Nat := scanPciAddrsAux cs.length cs

/- NETDEV_PCI_ADDR_RE: for each "virtio-net-pci" occurrence, its quoted segment
   (up to the next apostrophe) contributes the last ",?addr=0x<hex>" in it.
   (The greedy [^']* of the source regex picks the last addr= of the segment.) -/
def lastAddr (seg : List Char) : Option Nat :=
  (scanPciAddrsAux seg.length seg).getLast?

def scanNetdevAddrsAux : Nat → List Char → List Nat
  | 0, _ => []
  | fuel + 1, cs =>
    match cs with
    | [] => []
    | 'v' :: 'i' :: 'r' :: 't' :: 'i' :: 'o' :: '-' :: 'n' :: 'e' :: 't' :: '-' :: 'p' :: 'c' :: 'i' :: tail =>
      let seg := tail.takeWhile (fun c => c ≠ '\'')
      match lastAddr seg with
      | some v => v :: scanNetdevAddrsAux fuel (tail.drop seg.length)
      | none => scanNetdevAddrsAux fuel (tail.drop seg.length)
    | _ :: rest => scanNetdevAddrsAux fuel rest

def scanNetdevAddrs (cs : List Char) : List Nat := scanNetdevAddrsAux cs.length cs

/- pci_info: input = (returncode, stdout) of "qm showcmd <vmid>".
   Non-zero exit (or, in the source, any exception) gives the empty state. -/
def pci_info (res : Int × String) : List Nat × Int :=
  if res.1 ≠ 0 then ([], -1)
  else
    (scanPciAddrs res.2.data,
     (scanNetdevAddrs res.2.data).foldl
       (fun hi v => if (v : Int) > hi then (v : Int) else hi) (-1))

/- collect_existing_nics: mac → (net index, pci addr) from NETDEV_FULL_RE.
   Per virtio-net-pci segment: mac=, netdev=net<N>, addr=0x<slot>, in order.
   Well-formed showcmd output has one entry per segment and distinct macs,
   so association-list lookup below agrees with the Python dict. -/
def segNicEntry (seg : List Char) : Option (String × (Nat × Nat)) :=
  let rec findMac : Nat → List Char → Option (String × (Nat × Nat))
    | 0, _ => none
    | _ + 1, [] => none
    | fuel + 1, 'm' :: 'a' :: 'c' :: '=' :: tail =>
      let mcs := tail.takeWhile (fun c => isHexDigitChar c || c = ':')
      if mcs.isEmpty then findMac fuel tail
      else
        let rest := tail.drop mcs.length
        let rec findNet : Nat → List Char → Option (Nat × Nat)
          | 0, _ => none
          | _ + 1, [] => none
          | f + 1, 'n' :: 'e' :: 't' :: 'd' :: 'e' :: 'v' :: '=' :: 'n' :: 'e' :: 't' :: t2 =>
            let ns := t2.takeWhile Char.isDigit
            if ns.isEmpty then findNet f t2
            else
              let r2 := t2.drop ns.length
              match scanPciAddrsAux r2.length r2 with
              | a :: _ => some (decVal ns, a)
              | [] => none
          | f + 1, _ :: r => findNet f r
        match findNet rest.length rest with
        | some (n, a) => some (String.mk (mcs.map Char.toLower), (n, a))
        | none => findMac fuel tail
    | fuel + 1, _ :: r => findMac fuel r
  findMac seg.length seg

def collect_existing_nics (res : Int × String) : List (String × (Nat × Nat)) :=
  if res.1 ≠ 0 then []
  else
    let rec go : Nat → List Char → List (String × (Nat × Nat))
      | 0, _ => []
      | fuel + 1, cs =>
        match cs with
        | [] => []
        | 'v' :: 'i' :: 'r' :: 't' :: 'i' :: 'o' :: '-' :: 'n' :: 'e' :: 't' :: '-' :: 'p' :: 'c' :: 'i' :: tail =>
          let seg := tail.takeWhile (fun c => c ≠ '\'')
          match segNicEntry seg with
          | some e => e :: go fuel (tail.drop seg.length)
          | none => go fuel (tail.drop seg.length)
        | _ :: rest => go fuel rest
    go res.2.data.length res.2.data

/- ---------- the allocation engine (main, source lines 124-284) ---------- -/

structure Resolved where
  vm : Nat
  eth : Nat
  mac : String
  idx : Nat
  slot : Option Nat
  local_ip : String
  local_port : Nat
  remote_ip : String
  remote_port : Nat
  reused : Bool
deriving DecidableEq, Repr

/- The configuration (load_cfg result) together with the per-VM host snapshots
   (the values highest_existing_net_index, pci_info and collect_existing_nics
   would return for each VM: host IO is an input of the model). -/
structure Cfg where
  mac_pref : Nat × Nat × Nat
  udp_port_base : Nat
  model : String
  host_mtu : Nat
  rxq : Nat
  txq : Nat
  udp_map : List (Nat × String)
  udp_default_ip : String
  loopback_if_same_host : Bool
  auto_pci_addr : Bool
  pci_alloc_strategy : String
  existing_nics_by_vm : Nat → List (String × (Nat × Nat))
  hi_net_index : Nat → Int
  pci_used0 : Nat → List Nat
  hi_slot0 : Nat → Int

/- The mutable run state of main. -/
structure EState where
  used_ports : List (Nat × (Nat × Nat))
  seen : List (Nat × Nat)
  current_index : Nat → Nat
  pci_used : Nat → List Nat
  highest_nic_slot : Nat → Int
  out : List Resolved
  reused_ifaces : List (Nat × Nat × Nat × Nat)
  per_vm_args : List (Nat × List String)

def updFn {α : Type} (f : Nat → α) (k : Nat) (v : α) : Nat → α :=
  fun x => if x = k then v else f x

def ip_lookup (m : List (Nat × String)) (vm : Nat) (dflt : String) : String :=
  match m.find? (fun e => e.1 == vm) with
  | some e => e.2
  | none => dflt

def mac_lookup (m : List (String × (Nat × Nat))) (mac : String) : Option (Nat × Nat) :=
  match m.find? (fun e => e.1 == mac) with
  | some e => some e.2
  | none => none

/- per_vm_args.setdefault(vm, []).extend(args) -/
def pva_add (l : List (Nat × List String)) (vm : Nat) (args : List String) :
    List (Nat × List String) :=
  match l with
  | [] => [(vm, args)]
  | (v, a) :: rest =>
    if v = vm then (v, a ++ args) :: rest else (v, a) :: pva_add rest vm args

def netdev_str (idx : Nat) (remote_ip : String) (remote_port : Nat)
    (local_ip : String) (local_port : Nat) : String :=
  "-netdev socket,id=net" ++ decStr idx ++ ",udp=" ++ remote_ip ++ (":") ++
  decStr remote_port ++ ",localaddr=" ++ local_ip ++ (":") ++ decStr local_port

def device_str (cfg : Cfg) (mac : String) (idx : Nat) (slot : Option Nat) : String :=
  String.intercalate (",")
    (["-device " ++ cfg.model, "mac=" ++ mac, "netdev=net" ++ decStr idx]
     ++ (match slot with
         | some a => ["bus=pci.0", "addr=0x" ++ hexStr a]
         | none => [])
     ++ ["id=net" ++ decStr idx, "rx_queue_size=" ++ decStr cfg.rxq,
         "tx_queue_size=" ++ decStr cfg.txq]
     ++ (if cfg.host_mtu > 0 then ["host_mtu=" ++ decStr cfg.host_mtu] else []))

/- The body of the inner endpoint loop (source lines 209-271). -/
def process_endpoint (cfg : Cfg) (st : EState) (vm eth_idx : Nat) (mac : String)
    (local_ip : String) (local_port : Nat) (remote_ip : String) (remote_port : Nat) :
    Except EngErr EState :=
  if (vm, eth_idx) ∈ st.seen then .error (.dupEndpoint vm eth_idx)
  else
    match mac_lookup (cfg.existing_nics_by_vm vm) mac with
    | some (reuse_idx, reuse_pci) =>
      if cfg.auto_pci_addr then
        .ok { st with
          seen := (vm, eth_idx) :: st.seen,
          out := st.out ++ [⟨vm, eth_idx, mac, reuse_idx, none,
                             local_ip, local_port, remote_ip, remote_port, true⟩],
          per_vm_args := pva_add st.per_vm_args vm
            [netdev_str reuse_idx remote_ip remote_port local_ip local_port,
             device_str cfg mac reuse_idx none] }
      else
        .ok { st with
          seen := (vm, eth_idx) :: st.seen,
          pci_used := if (st.pci_used vm).contains reuse_pci then st.pci_used
                      else updFn st.pci_used vm (reuse_pci :: st.pci_used vm),
          reused_ifaces := st.reused_ifaces ++ [(vm, eth_idx, reuse_idx, reuse_pci)],
          out := st.out ++ [⟨vm, eth_idx, mac, reuse_idx, some reuse_pci,
                             local_ip, local_port, remote_ip, remote_port, true⟩],
          per_vm_args := pva_add st.per_vm_args vm
            [netdev_str reuse_idx remote_ip remote_port local_ip local_port,
             device_str cfg mac reuse_idx (some reuse_pci)] }
    | none =>
      if cfg.auto_pci_addr then
        .ok { st with
          seen := (vm, eth_idx) :: st.seen,
          current_index := updFn st.current_index vm (st.current_index vm + 1),
          out := st.out ++ [⟨vm, eth_idx, mac, st.current_index vm, none,
                             local_ip, local_port, remote_ip, remote_port, false⟩],
          per_vm_args := pva_add st.per_vm_args vm
            [netdev_str (st.current_index vm) remote_ip remote_port local_ip local_port,
             device_str cfg mac (st.current_index vm) none] }
      else
        match alloc_pci cfg.pci_alloc_strategy (st.pci_used vm) (st.highest_nic_slot vm) with
        | none => .error (.slotExhaustion vm)
        | some (addr, used2, hi2) =>
          .ok { st with
            seen := (vm, eth_idx) :: st.seen,
            current_index := updFn st.current_index vm (st.current_index vm + 1),
            pci_used := updFn st.pci_used vm used2,
            highest_nic_slot := updFn st.highest_nic_slot vm hi2,
            out := st.out ++ [⟨vm, eth_idx, mac, st.current_index vm, some addr,
                               local_ip, local_port, remote_ip, remote_port, false⟩],
            per_vm_args := pva_add st.per_vm_args vm
              [netdev_str (st.current_index vm) remote_ip remote_port local_ip local_port,
               device_str cfg mac (st.current_index vm) (some addr)] }

/- Peer address resolution with the same-host loopback rewrite (lines 198-201). -/
def resolve_ips (cfg : Cfg) (a b : Nat) : String × String :=
  let ipA := ip_lookup cfg.udp_map a cfg.udp_default_ip
  let ipB := ip_lookup cfg.udp_map b cfg.udp_default_ip
  if cfg.loopback_if_same_host ∧ ipA = ipB ∧ ipA ≠ "127.0.0.1" ∧ ipA ≠ "::1" then
    ("127.0.0.1", "127.0.0.1")
  else (ipA, ipB)

/- One iteration of the main link loop (source lines 197-271).  The source
   computes the resolved ips and the two macs (pure values) before allocating
   the ports; they are inlined here. -/
def process_link (cfg : Cfg) (st : EState) (l : (Nat × Nat) × (Nat × Nat)) :
    Except EngErr EState :=
  match alloc_port (lead_digit cfg.udp_port_base) st.used_ports l.1.1 l.1.2 with
  | .error e => .error e
  | .ok (portA, up1) =>
    match alloc_port (lead_digit cfg.udp_port_base) up1 l.2.1 l.2.2 with
    | .error e => .error e
    | .ok (portB, up2) =>
      match process_endpoint cfg { st with used_ports := up2 }
          l.1.1 l.1.2 (gen_mac cfg.mac_pref l.1.1 l.1.2)
          (resolve_ips cfg l.1.1 l.2.1).1 portA (resolve_ips cfg l.1.1 l.2.1).2 portB with
      | .error e => .error e
      | .ok st1 =>
        process_endpoint cfg st1 l.2.1 l.2.2 (gen_mac cfg.mac_pref l.2.1 l.2.2)
          (resolve_ips cfg l.1.1 l.2.1).2 portB (resolve_ips cfg l.1.1 l.2.1).1 portA

def run_links (cfg : Cfg) (st : EState) :
    List ((Nat × Nat) × (Nat × Nat)) → Except EngErr EState
  | [] => .ok st
  | l :: ls =>
    match process_link cfg st l with
    | .error e => .error e
    | .ok st2 => run_links cfg st2 ls

/- Initial state of main: empty run state, per-VM counters from the host
   snapshots, pci_used seeded with the reserved bridge slots 0x1e, 0x1f. -/
def init_state (cfg : Cfg) : EState :=
  { used_ports := []
    seen := []
    current_index := fun vm => (cfg.hi_net_index vm + 1).toNat
    pci_used := fun vm => 0x1e :: 0x1f :: cfg.pci_used0 vm
    highest_nic_slot := cfg.hi_slot0
    out := []
    reused_ifaces := []
    per_vm_args := [] }

def engine_out (cfg : Cfg) (st : EState) (links : List ((Nat × Nat) × (Nat × Nat))) :
    Except EngErr (List Resolved) :=
  (run_links cfg st links).map EState.out

/- ---------- lemmas about alloc_port ---------- -/

theorem alloc_port_ok (d : Nat) (used : List (Nat × (Nat × Nat))) (vm eth p : Nat)
    (used2 : List (Nat × (Nat × Nat)))
    (h : alloc_port d used vm eth = .ok (p, used2)) :
    vm ≤ 999 ∧ eth ≤ 9 ∧ p = port_value d vm eth ∧ p ≤ 65535 ∧
    used2 = (p, (vm, eth)) :: used ∧
    (lookup_port used p = none ∨ lookup_port used p = some (vm, eth)) := by
  unfold alloc_port at h
  split at h
  · cases h
  · rename_i hrange
    split at h
    · cases h
    · rename_i hport
      split at h
      · rename_i prev hprev
        split at h
        · cases h
        · rename_i hne
          cases h
          refine ⟨by omega, by omega, rfl, by omega, rfl, .inr ?_⟩
          rw [hprev]
          simp only [ne_eq, not_not] at hne
          rw [hne]
      · rename_i hnone
        cases h
        exact ⟨by omega, by omega, rfl, by omega, rfl, .inl hnone⟩

theorem alloc_port_range_iff (d : Nat) (used : List (Nat × (Nat × Nat))) (vm eth : Nat) :
    (∃ e, alloc_port d used vm eth = .error e ∧ e.isRangeError = true) ↔
    (vm > 999 ∨ eth > 9 ∨ port_value d vm eth > 65535) := by
  unfold alloc_port
  constructor
  · rintro ⟨e, he, hr⟩
    split at he
    · rename_i h
      omega
    · rename_i h
      split at he
      · rename_i h2
        omega
      · split at he
        · split at he
          · cases he
            cases hr
          · cases he
        · cases he
  · intro h
    by_cases h1 : vm > 999 ∨ eth > 9
    · simp only [h1, if_true]
      exact ⟨.rangeVmEth vm eth, rfl, rfl⟩
    · simp only [h1, if_false]
      have h2 : port_value d vm eth > 65535 := by tauto
      simp only [h2, if_true]
      exact ⟨.portOutOfRange (port_value d vm eth), rfl, rfl⟩

theorem alloc_port_collision (d : Nat) (used : List (Nat × (Nat × Nat))) (vm eth : Nat)
    (prev : Nat × Nat)
    (h1 : vm ≤ 999) (h2 : eth ≤ 9) (h3 : port_value d vm eth ≤ 65535)
    (hlk : lookup_port used (port_value d vm eth) = some prev)
    (hne : prev ≠ (vm, eth)) :
    alloc_port d used vm eth =
      .error (.portCollision (port_value d vm eth) vm eth prev.1 prev.2) := by
  unfold alloc_port
  have hr : ¬ (vm > 999 ∨ eth > 9) := by omega
  rw [if_neg hr, if_neg (by omega), hlk]
  simp [hne]

theorem alloc_port_registers (d : Nat) (used : List (Nat × (Nat × Nat))) (vm eth p : Nat)
    (used2 : List (Nat × (Nat × Nat)))
    (h : alloc_port d used vm eth = .ok (p, used2)) :
    lookup_port used2 p = some (vm, eth) := by
  obtain ⟨-, -, -, -, h5, -⟩ := alloc_port_ok d used vm eth p used2 h
  rw [h5]
  simp [lookup_port, List.find?_cons_of_pos]

/- ---------- lemmas about alloc_pci ---------- -/

theorem find?_range'_spec (p : Nat → Bool) :
    ∀ n lo a, (List.range' lo n).find? p = some a →
      p a = true ∧ lo ≤ a ∧ a < lo + n ∧ ∀ b, lo ≤ b → b < a → p b = false := by
  intro n
  induction n with
  | zero => simp [List.range']
  | succ n ih =>
    intro lo a h
    rw [List.range'_succ] at h
    by_cases hp : p lo
    · rw [List.find?_cons_of_pos _ hp] at h
      cases h
      exact ⟨hp, Nat.le_refl _, by omega, fun b hb1 hb2 => by omega⟩
    · rw [List.find?_cons_of_neg _ hp] at h
      obtain ⟨ha, hlo, hup, hmin⟩ := ih (lo + 1) a h
      refine ⟨ha, by omega, by omega, fun b hb1 hb2 => ?_⟩
      rcases Nat.eq_or_lt_of_le hb1 with heq | hlt
      · rw [← heq]
        exact Bool.eq_false_iff.mpr hp
      · exact hmin b hlt hb2

theorem find?_range'_none (p : Nat → Bool) (n lo : Nat) :
    (List.range' lo n).find? p = none ↔ ∀ b, lo ≤ b → b < lo + n → p b = false := by
  rw [List.find?_eq_none]
  constructor
  · intro h b hb1 hb2
    have : b ∈ List.range' lo n := by
      rw [List.mem_range']
      exact ⟨b - lo, by omega, by omega⟩
    exact Bool.eq_false_iff.mpr (h b this)
  · intro h x hx
    rw [List.mem_range'] at hx
    obtain ⟨i, hi, rfl⟩ := hx
    have := h (lo + 1 * i) (by omega) (by omega)
    simp only [this]
    exact Bool.false_ne_true

theorem pci_upward_scan_some (strat : String) (used : List Nat) (highest : Int) (a : Nat)
    (h : pci_upward_scan strat used highest = some a) :
    strat = "next_highest" ∧ (max (highest + 1) 2).toNat ≤ a ∧ a < 0x1e ∧
    used.contains a = false ∧
    ∀ b, (max (highest + 1) 2).toNat ≤ b → b < a → used.contains b = true := by
  unfold pci_upward_scan at h
  split at h
  · rename_i hstrat
    split at h
    · rename_i hlt
      have hspec := find?_range'_spec _ _ _ _ h
      refine ⟨hstrat, hspec.2.1, by have := hspec.2.2.1; omega, by simpa using hspec.1,
        fun b hb1 hb2 => ?_⟩
      have := hspec.2.2.2 b hb1 hb2
      simpa using this
    · cases h
  · cases h

theorem pci_upward_scan_none_next (used : List Nat) (highest : Int)
    (h : pci_upward_scan ("next_highest") used highest = none) :
    ∀ b, (max (highest + 1) 2).toNat ≤ b → b < 0x1e → used.contains b = true := by
  unfold pci_upward_scan at h
  rw [if_pos rfl] at h
  split at h
  · rename_i hlt
    intro b hb1 hb2
    rw [find?_range'_none] at h
    have := h b hb1 (by omega)
    simpa using this
  · rename_i hge
    intro b hb1 hb2
    omega

theorem pci_upward_scan_not_next (strat : String) (used : List Nat) (highest : Int)
    (hs : strat ≠ "next_highest") : pci_upward_scan strat used highest = none := by
  unfold pci_upward_scan
  rw [if_neg hs]

theorem alloc_pci_ok (strat : String) (used : List Nat) (highest : Int)
    (a : Nat) (used2 : List Nat) (h2 : Int)
    (h : alloc_pci strat used highest = some (a, used2, h2)) :
    2 ≤ a ∧ a < 0x1e ∧ used.contains a = false ∧ used2 = a :: used ∧
    h2 = max highest (a : Int) := by
  have h2start : (2 : Nat) ≤ (max (highest + 1) 2).toNat := by
    have : (2 : Int) ≤ max (highest + 1) 2 := le_max_right _ _
    omega
  unfold alloc_pci at h
  split at h
  · rename_i addr hup
    cases h
    obtain ⟨-, hlo, hhi, hfree, -⟩ := pci_upward_scan_some _ _ _ _ hup
    exact ⟨by omega, hhi, hfree, rfl, rfl⟩
  · split at h
    · rename_i addr hdn
      cases h
      have hspec := find?_range'_spec _ _ _ _ hdn
      exact ⟨hspec.2.1, by have := hspec.2.2.1; omega, by simpa using hspec.1, rfl, rfl⟩
    · cases h

theorem alloc_pci_none_iff (strat : String) (used : List Nat) (highest : Int) :
    alloc_pci strat used highest = none ↔
    ∀ b, 2 ≤ b → b < 0x1e → used.contains b = true := by
  unfold alloc_pci
  constructor
  · intro h
    split at h
    · cases h
    · split at h
      · cases h
      · rename_i hdn
        intro b hb1 hb2
        rw [find?_range'_none] at hdn
        have := hdn b hb1 (by omega)
        simpa using this
  · intro hall
    have hdn : (List.range' 0x02 0x1c).find? (fun a => !used.contains a) = none := by
      rw [find?_range'_none]
      intro b hb1 hb2
      show (!used.contains b) = false
      rw [hall b hb1 (by omega)]
      rfl
    have h2start : (2 : Nat) ≤ (max (highest + 1) 2).toNat := by
      have : (2 : Int) ≤ max (highest + 1) 2 := le_max_right _ _
      omega
    split
    · rename_i addr hup
      exfalso
      obtain ⟨-, hlo, hhi, hfree, -⟩ := pci_upward_scan_some _ _ _ _ hup
      rw [hall addr (by omega) hhi] at hfree
      cases hfree
    · rw [hdn]

/- lowest_free: the returned slot is the smallest free one in the usable range. -/
theorem alloc_pci_lowest_free (used : List Nat) (highest : Int)
    (a : Nat) (used2 : List Nat) (h2 : Int)
    (h : alloc_pci ("lowest_free") used highest = some (a, used2, h2)) :
    used.contains a = false ∧ 2 ≤ a ∧ a < 0x1e ∧
    ∀ b, 2 ≤ b → b < a → used.contains b = true := by
  unfold alloc_pci at h
  split at h
  · rename_i addr hup
    obtain ⟨hstrat, -⟩ := pci_upward_scan_some _ _ _ _ hup
    exact absurd hstrat (by decide)
  · split at h
    · rename_i addr hdn
      cases h
      have hspec := find?_range'_spec _ _ _ _ hdn
      refine ⟨by simpa using hspec.1, hspec.2.1, by have := hspec.2.2.1; omega,
        fun b hb1 hb2 => ?_⟩
      have := hspec.2.2.2 b hb1 hb2
      simpa using this
    · cases h

/- next_highest: scan upward from just above the highest slot seen; if that
   scan fails, fall back to the lowest_free scan over the whole range. -/
theorem alloc_pci_next_highest (used : List Nat) (highest : Int)
    (a : Nat) (used2 : List Nat) (h2 : Int)
    (h : alloc_pci ("next_highest") used highest = some (a, used2, h2)) :
    (((max (highest + 1) 2).toNat ≤ a ∧ a < 0x1e ∧ used.contains a = false ∧
       ∀ b, (max (highest + 1) 2).toNat ≤ b → b < a → used.contains b = true) ∨
     ((∀ b, (max (highest + 1) 2).toNat ≤ b → b < 0x1e → used.contains b = true) ∧
       used.contains a = false ∧ 2 ≤ a ∧ a < 0x1e ∧
       ∀ b, 2 ≤ b → b < a → used.contains b = true)) := by
  unfold alloc_pci at h
  split at h
  · rename_i addr hup
    cases h
    obtain ⟨-, hlo, hhi, hfree, hmin⟩ := pci_upward_scan_some _ _ _ _ hup
    exact .inl ⟨hlo, hhi, hfree, hmin⟩
  · rename_i hup
    have hscanned := pci_upward_scan_none_next _ _ hup
    split at h
    · rename_i addr hdn
      cases h
      have hspec := find?_range'_spec _ _ _ _ hdn
      exact .inr ⟨hscanned, by simpa using hspec.1, hspec.2.1,
        by have := hspec.2.2.1; omega,
        fun b hb1 hb2 => by have := hspec.2.2.2 b hb1 hb2; simpa using this⟩
    · cases h

/- ---------- lemmas about process_endpoint ---------- -/

theorem contains_true_iff {l : List Nat} {a : Nat} : l.contains a = true ↔ a ∈ l :=
  List.elem_iff

theorem contains_false_iff {l : List Nat} {a : Nat} : l.contains a = false ↔ a ∉ l := by
  rw [← contains_true_iff]
  cases h : l.contains a <;> simp

theorem updFn_same {α : Type} (f : Nat → α) (k : Nat) (v : α) : updFn f k v k = v := by
  simp [updFn]

theorem updFn_other {α : Type} (f : Nat → α) (k : Nat) (v : α) (x : Nat) (h : x ≠ k) :
    updFn f k v x = f x := by
  simp [updFn, h]

/- The duplicate check (step 1 of the endpoint loop). -/
theorem pe_dup (cfg : Cfg) (st : EState) (vm eth : Nat) (mac lip : String) (lp : Nat)
    (rip : String) (rp : Nat) (hseen : (vm, eth) ∈ st.seen) :
    process_endpoint cfg st vm eth mac lip lp rip rp = .error (.dupEndpoint vm eth) := by
  unfold process_endpoint
  rw [if_pos hseen]

/- Reuse path, bus addressing not delegated (source lines 217-245). -/
theorem pe_reuse (cfg : Cfg) (st : EState) (vm eth : Nat) (mac lip : String) (lp : Nat)
    (rip : String) (rp : Nat) (ri rps : Nat)
    (hseen : (vm, eth) ∉ st.seen)
    (hlk : mac_lookup (cfg.existing_nics_by_vm vm) mac = some (ri, rps))
    (hauto : cfg.auto_pci_addr = false) :
    process_endpoint cfg st vm eth mac lip lp rip rp =
      .ok { st with
        seen := (vm, eth) :: st.seen,
        pci_used := if (st.pci_used vm).contains rps then st.pci_used
                    else updFn st.pci_used vm (rps :: st.pci_used vm),
        reused_ifaces := st.reused_ifaces ++ [(vm, eth, ri, rps)],
        out := st.out ++ [⟨vm, eth, mac, ri, some rps, lip, lp, rip, rp, true⟩],
        per_vm_args := pva_add st.per_vm_args vm
          [netdev_str ri rip rp lip lp, device_str cfg mac ri (some rps)] } := by
  unfold process_endpoint
  rw [if_neg hseen, hlk, hauto]
  rfl

/- Fresh path, bus addressing not delegated, slot available. -/
theorem pe_fresh (cfg : Cfg) (st : EState) (vm eth : Nat) (mac lip : String) (lp : Nat)
    (rip : String) (rp : Nat) (addr : Nat) (used2 : List Nat) (hi2 : Int)
    (hseen : (vm, eth) ∉ st.seen)
    (hlk : mac_lookup (cfg.existing_nics_by_vm vm) mac = none)
    (hauto : cfg.auto_pci_addr = false)
    (halloc : alloc_pci cfg.pci_alloc_strategy (st.pci_used vm) (st.highest_nic_slot vm) =
      some (addr, used2, hi2)) :
    process_endpoint cfg st vm eth mac lip lp rip rp =
      .ok { st with
        seen := (vm, eth) :: st.seen,
        current_index := updFn st.current_index vm (st.current_index vm + 1),
        pci_used := updFn st.pci_used vm used2,
        highest_nic_slot := updFn st.highest_nic_slot vm hi2,
        out := st.out ++ [⟨vm, eth, mac, st.current_index vm, some addr,
                           lip, lp, rip, rp, false⟩],
        per_vm_args := pva_add st.per_vm_args vm
          [netdev_str (st.current_index vm) rip rp lip lp,
           device_str cfg mac (st.current_index vm) (some addr)] } := by
  unfold process_endpoint
  rw [if_neg hseen, hlk, hauto, halloc]
  rfl

/- Fresh path, bus addressing not delegated, range exhausted. -/
theorem pe_exhaust (cfg : Cfg) (st : EState) (vm eth : Nat) (mac lip : String) (lp : Nat)
    (rip : String) (rp : Nat)
    (hseen : (vm, eth) ∉ st.seen)
    (hlk : mac_lookup (cfg.existing_nics_by_vm vm) mac = none)
    (hauto : cfg.auto_pci_addr = false)
    (halloc : alloc_pci cfg.pci_alloc_strategy (st.pci_used vm) (st.highest_nic_slot vm) =
      none) :
    process_endpoint cfg st vm eth mac lip lp rip rp = .error (.slotExhaustion vm) := by
  unfold process_endpoint
  rw [if_neg hseen, hlk, hauto, halloc]
  rfl

/- With delegated bus addressing the endpoint step never fails past the
   duplicate check. -/
theorem pe_auto_ok (cfg : Cfg) (st : EState) (vm eth : Nat) (mac lip : String) (lp : Nat)
    (rip : String) (rp : Nat)
    (hseen : (vm, eth) ∉ st.seen)
    (hauto : cfg.auto_pci_addr = true) :
    ∃ st', process_endpoint cfg st vm eth mac lip lp rip rp = .ok st' ∧
      st'.seen = (vm, eth) :: st.seen ∧ st'.used_ports = st.used_ports := by
  unfold process_endpoint
  rw [if_neg hseen, hauto]
  cases hlk : mac_lookup (cfg.existing_nics_by_vm vm) mac with
  | some pr =>
    cases pr with
    | mk ri rps => exact ⟨_, rfl, rfl, rfl⟩
  | none => exact ⟨_, rfl, rfl, rfl⟩

/- Every failure of the endpoint step is a duplicate (the endpoint was already
   seen) or slot exhaustion (only without delegated addressing). -/
theorem pe_err (cfg : Cfg) (st : EState) (vm eth : Nat) (mac lip : String) (lp : Nat)
    (rip : String) (rp : Nat) (e : EngErr)
    (h : process_endpoint cfg st vm eth mac lip lp rip rp = .error e) :
    (e = .dupEndpoint vm eth ∧ (vm, eth) ∈ st.seen) ∨
    (e = .slotExhaustion vm ∧ cfg.auto_pci_addr = false) := by
  unfold process_endpoint at h
  split at h
  · rename_i hseen
    cases h
    exact .inl ⟨rfl, hseen⟩
  · rename_i hseen
    split at h
    · rename_i pr hlk
      split at h
      · cases h
      · cases h
    · split at h
      · cases h
      · rename_i hauto
        split at h
        · cases h
          refine .inr ⟨rfl, ?_⟩
          cases hval : cfg.auto_pci_addr
          · rfl
          · rw [hval] at hauto
            exact absurd rfl hauto
        · cases h

/- The general shape of a successful endpoint step. -/
theorem pe_ok_inv (cfg : Cfg) (st : EState) (vm eth : Nat) (mac lip : String) (lp : Nat)
    (rip : String) (rp : Nat) (st' : EState)
    (h : process_endpoint cfg st vm eth mac lip lp rip rp = .ok st') :
    ((vm, eth) ∉ st.seen) ∧
    st'.seen = (vm, eth) :: st.seen ∧
    st'.used_ports = st.used_ports ∧
    (∀ v s, s ∈ st.pci_used v → s ∈ st'.pci_used v) ∧
    ∃ r, st'.out = st.out ++ [r] ∧ r.vm = vm ∧ r.eth = eth ∧ r.mac = mac ∧
      r.local_ip = lip ∧ r.local_port = lp ∧ r.remote_ip = rip ∧ r.remote_port = rp ∧
      (cfg.auto_pci_addr = false → ∃ s, r.slot = some s ∧ s ∈ st'.pci_used vm) ∧
      (r.reused = false → cfg.auto_pci_addr = false →
        ∃ s, r.slot = some s ∧ s ∉ st.pci_used vm ∧ 2 ≤ s ∧ s < 0x1e) := by
  unfold process_endpoint at h
  split at h
  · cases h
  · rename_i hseen
    split at h
    · rename_i ri rps hlk
      split at h
      · rename_i hauto
        cases h
        refine ⟨hseen, rfl, rfl, fun v s hs => hs, ⟨_, rfl, rfl, rfl, rfl, rfl, rfl, rfl, rfl,
          ?_, ?_⟩⟩
        · intro hfalse
          rw [hfalse] at hauto
          cases hauto
        · intro hr
          cases hr
      · rename_i hauto
        cases h
        refine ⟨hseen, rfl, rfl, ?_, ⟨_, rfl, rfl, rfl, rfl, rfl, rfl, rfl, rfl, ?_, ?_⟩⟩
        · intro v s hs
          show s ∈ (if (st.pci_used vm).contains rps then st.pci_used
                    else updFn st.pci_used vm (rps :: st.pci_used vm)) v
          split
          · exact hs
          · by_cases hv : v = vm
            · rw [hv, updFn_same]
              rw [hv] at hs
              exact List.mem_cons_of_mem _ hs
            · rw [updFn_other _ _ _ _ hv]
              exact hs
        · intro _
          refine ⟨rps, rfl, ?_⟩
          show rps ∈ (if (st.pci_used vm).contains rps then st.pci_used
                      else updFn st.pci_used vm (rps :: st.pci_used vm)) vm
          split
          · rename_i hc
            exact contains_true_iff.mp hc
          · rw [updFn_same]
            exact List.mem_cons_self _ _
        · intro hr
          cases hr
    · rename_i hlk
      split at h
      · rename_i hauto
        cases h
        refine ⟨hseen, rfl, rfl, fun v s hs => hs, ⟨_, rfl, rfl, rfl, rfl, rfl, rfl, rfl, rfl,
          ?_, ?_⟩⟩
        · intro hfalse
          rw [hfalse] at hauto
          cases hauto
        · intro _ hfalse
          rw [hfalse] at hauto
          cases hauto
      · rename_i hauto
        split at h
        · cases h
        · rename_i res addr used2 hi2 halloc
          cases h
          obtain ⟨h2a, ha30, hfree, hused2, -⟩ := alloc_pci_ok _ _ _ _ _ _ halloc
          refine ⟨hseen, rfl, rfl, ?_, ⟨_, rfl, rfl, rfl, rfl, rfl, rfl, rfl, rfl, ?_, ?_⟩⟩
          · intro v s hs
            show s ∈ updFn st.pci_used vm used2 v
            by_cases hv : v = vm
            · rw [hv, updFn_same, hused2]
              rw [hv] at hs
              exact List.mem_cons_of_mem _ hs
            · rw [updFn_other _ _ _ _ hv]
              exact hs
          · intro _
            refine ⟨addr, rfl, ?_⟩
            show addr ∈ updFn st.pci_used vm used2 vm
            rw [updFn_same, hused2]
            exact List.mem_cons_self _ _
          · intro _ _
            exact ⟨addr, rfl, contains_false_iff.mp hfree, h2a, ha30⟩

/- ---------- lemmas about process_link and run_links ---------- -/

theorem pl_ok (cfg : Cfg) (st : EState) (l : (Nat × Nat) × (Nat × Nat)) (st' : EState)
    (h : process_link cfg st l = .ok st') :
    ∃ pA u1 pB u2 st1,
      alloc_port (lead_digit cfg.udp_port_base) st.used_ports l.1.1 l.1.2 = .ok (pA, u1) ∧
      alloc_port (lead_digit cfg.udp_port_base) u1 l.2.1 l.2.2 = .ok (pB, u2) ∧
      process_endpoint cfg { st with used_ports := u2 } l.1.1 l.1.2
        (gen_mac cfg.mac_pref l.1.1 l.1.2)
        (resolve_ips cfg l.1.1 l.2.1).1 pA (resolve_ips cfg l.1.1 l.2.1).2 pB = .ok st1 ∧
      process_endpoint cfg st1 l.2.1 l.2.2 (gen_mac cfg.mac_pref l.2.1 l.2.2)
        (resolve_ips cfg l.1.1 l.2.1).2 pB (resolve_ips cfg l.1.1 l.2.1).1 pA = .ok st' := by
  unfold process_link at h
  split at h
  · cases h
  · rename_i pA u1 hA
    split at h
    · cases h
    · rename_i pB u2 hB
      split at h
      · cases h
      · rename_i st1 h1
        exact ⟨pA, u1, pB, u2, st1, hA, hB, h1, h⟩

theorem pl_err (cfg : Cfg) (st : EState) (l : (Nat × Nat) × (Nat × Nat)) (e : EngErr)
    (h : process_link cfg st l = .error e) :
    (alloc_port (lead_digit cfg.udp_port_base) st.used_ports l.1.1 l.1.2 = .error e) ∨
    (∃ pA u1,
      alloc_port (lead_digit cfg.udp_port_base) st.used_ports l.1.1 l.1.2 = .ok (pA, u1) ∧
      alloc_port (lead_digit cfg.udp_port_base) u1 l.2.1 l.2.2 = .error e) ∨
    (∃ pA u1 pB u2,
      alloc_port (lead_digit cfg.udp_port_base) st.used_ports l.1.1 l.1.2 = .ok (pA, u1) ∧
      alloc_port (lead_digit cfg.udp_port_base) u1 l.2.1 l.2.2 = .ok (pB, u2) ∧
      process_endpoint cfg { st with used_ports := u2 } l.1.1 l.1.2
        (gen_mac cfg.mac_pref l.1.1 l.1.2)
        (resolve_ips cfg l.1.1 l.2.1).1 pA (resolve_ips cfg l.1.1 l.2.1).2 pB = .error e) ∨
    (∃ pA u1 pB u2 st1,
      alloc_port (lead_digit cfg.udp_port_base) st.used_ports l.1.1 l.1.2 = .ok (pA, u1) ∧
      alloc_port (lead_digit cfg.udp_port_base) u1 l.2.1 l.2.2 = .ok (pB, u2) ∧
      process_endpoint cfg { st with used_ports := u2 } l.1.1 l.1.2
        (gen_mac cfg.mac_pref l.1.1 l.1.2)
        (resolve_ips cfg l.1.1 l.2.1).1 pA (resolve_ips cfg l.1.1 l.2.1).2 pB = .ok st1 ∧
      process_endpoint cfg st1 l.2.1 l.2.2 (gen_mac cfg.mac_pref l.2.1 l.2.2)
        (resolve_ips cfg l.1.1 l.2.1).2 pB (resolve_ips cfg l.1.1 l.2.1).1 pA = .error e) := by
  unfold process_link at h
  split at h
  · rename_i e1 hA
    cases h
    exact .inl hA
  · rename_i pA u1 hA
    split at h
    · rename_i e1 hB
      cases h
      exact .inr (.inl ⟨pA, u1, hA, hB⟩)
    · rename_i pB u2 hB
      split at h
      · rename_i e1 h1
        cases h
        exact .inr (.inr (.inl ⟨pA, u1, pB, u2, hA, hB, h1⟩))
      · rename_i st1 h1
        exact .inr (.inr (.inr ⟨pA, u1, pB, u2, st1, hA, hB, h1, h⟩))

theorem rl_nil (cfg : Cfg) (st : EState) : run_links cfg st [] = .ok st := rfl

theorem rl_cons (cfg : Cfg) (st : EState) (l : (Nat × Nat) × (Nat × Nat))
    (ls : List ((Nat × Nat) × (Nat × Nat))) :
    run_links cfg st (l :: ls) =
      match process_link cfg st l with
      | .error e => .error e
      | .ok st2 => run_links cfg st2 ls := rfl

/- out only ever grows (by two records per link). -/
theorem pl_out_mono (cfg : Cfg) (st : EState) (l : (Nat × Nat) × (Nat × Nat)) (st' : EState)
    (h : process_link cfg st l = .ok st') :
    ∃ rA rB, st'.out = st.out ++ [rA, rB] := by
  obtain ⟨pA, u1, pB, u2, st1, hA, hB, h1, h2⟩ := pl_ok cfg st l st' h
  obtain ⟨-, -, -, -, rA, hout1, -⟩ := pe_ok_inv _ _ _ _ _ _ _ _ _ _ h1
  obtain ⟨-, -, -, -, rB, hout2, -⟩ := pe_ok_inv _ _ _ _ _ _ _ _ _ _ h2
  refine ⟨rA, rB, ?_⟩
  rw [hout2, hout1]
  simp

theorem rl_out_mono (cfg : Cfg) :
    ∀ (ls : List ((Nat × Nat) × (Nat × Nat))) (st st' : EState),
      run_links cfg st ls = .ok st' → ∃ t, st'.out = st.out ++ t := by
  intro ls
  induction ls with
  | nil =>
    intro st st' h
    cases h
    exact ⟨[], by simp⟩
  | cons l ls ih =>
    intro st st' h
    rw [rl_cons] at h
    split at h
    · cases h
    · rename_i st2 h2
      obtain ⟨rA, rB, hout⟩ := pl_out_mono cfg st l st2 h2
      obtain ⟨t, ht⟩ := ih st2 st' h
      exact ⟨[rA, rB] ++ t, by rw [ht, hout]; simp⟩

/- ---------- idempotence machinery ---------- -/

def endp (r : Resolved) : Nat × Nat := (r.vm, r.eth)

def reused_true (r : Resolved) : Resolved := { r with reused := true }

/- Reflect a run's output back as the existing-interfaces-by-MAC snapshot a
   subsequent run would read from the host. -/
def reflect_existing (out : List Resolved) (vm : Nat) : List (String × (Nat × Nat)) :=
  out.filterMap (fun r => if r.vm = vm then some (r.mac, (r.idx, r.slot.getD 0)) else none)

theorem gen_mac_inj_bounded (mp : Nat × Nat × Nat) (vm ei vm2 ei2 : Nat)
    (h1 : vm ≤ 999) (h2 : ei ≤ 9) (h3 : vm2 ≤ 999) (h4 : ei2 ≤ 9)
    (h : gen_mac mp vm ei = gen_mac mp vm2 ei2) : vm = vm2 ∧ ei = ei2 := by
  obtain ⟨ha, hb⟩ := gen_mac_inj mp vm ei vm2 ei2 h
  omega

theorem mac_lookup_cons_hit (e : String × (Nat × Nat)) (l : List (String × (Nat × Nat))) :
    mac_lookup (e :: l) e.1 = some e.2 := by
  simp [mac_lookup]

theorem mac_lookup_cons_miss (e : String × (Nat × Nat)) (l : List (String × (Nat × Nat)))
    (mac : String) (h : e.1 ≠ mac) : mac_lookup (e :: l) mac = mac_lookup l mac := by
  unfold mac_lookup
  rw [List.find?_cons_of_neg]
  simp [h]

/- In the reflected snapshot, looking up a record's mac finds exactly that
   record's device index and slot (macs are distinct because endpoints are
   distinct, bounded, and gen_mac is injective on the bounded domain). -/
theorem reflect_lookup (mp : Nat × Nat × Nat) :
    ∀ OUT : List Resolved,
      (∀ r ∈ OUT, r.mac = gen_mac mp r.vm r.eth) →
      (∀ r ∈ OUT, r.vm ≤ 999 ∧ r.eth ≤ 9) →
      (OUT.map endp).Nodup →
      ∀ r ∈ OUT, mac_lookup (reflect_existing OUT r.vm) r.mac =
        some (r.idx, r.slot.getD 0) := by
  intro OUT
  induction OUT with
  | nil =>
    intro _ _ _ r hr
    cases hr
  | cons r0 rest ih =>
    intro hmac hbnd hnd r hr
    have hnd' : (rest.map endp).Nodup := by
      rw [List.map_cons, List.nodup_cons] at hnd
      exact hnd.2
    have hnotin : endp r0 ∉ rest.map endp := by
      rw [List.map_cons, List.nodup_cons] at hnd
      exact hnd.1
    rcases List.mem_cons.mp hr with rfl | hr
    · have hrf : reflect_existing (r :: rest) r.vm =
          (r.mac, (r.idx, r.slot.getD 0)) :: reflect_existing rest r.vm := by
        simp [reflect_existing]
      rw [hrf]
      exact mac_lookup_cons_hit (r.mac, (r.idx, r.slot.getD 0)) _
    · have ihr := ih (fun x hx => hmac x (List.mem_cons_of_mem _ hx))
        (fun x hx => hbnd x (List.mem_cons_of_mem _ hx)) hnd' r hr
      by_cases hv : r0.vm = r.vm
      · have hrf : reflect_existing (r0 :: rest) r.vm =
            (r0.mac, (r0.idx, r0.slot.getD 0)) :: reflect_existing rest r.vm := by
          simp [reflect_existing, hv]
        rw [hrf]
        have hne : r0.mac ≠ r.mac := by
          intro heq
          have h0 := hmac r0 (List.mem_cons_self _ _)
          have h1 := hmac r (List.mem_cons_of_mem _ hr)
          rw [h0, h1] at heq
          obtain ⟨b0, b1⟩ := hbnd r0 (List.mem_cons_self _ _)
          obtain ⟨b2, b3⟩ := hbnd r (List.mem_cons_of_mem _ hr)
          obtain ⟨hvv, hee⟩ := gen_mac_inj_bounded mp r0.vm r0.eth r.vm r.eth b0 b1 b2 b3 heq
          apply hnotin
          have : endp r0 = endp r := by
            unfold endp
            rw [hvv, hee]
          rw [this]
          exact List.mem_map_of_mem endp hr
        rw [mac_lookup_cons_miss _ _ _ hne]
        exact ihr
      · have hrf : reflect_existing (r0 :: rest) r.vm = reflect_existing rest r.vm := by
          simp [reflect_existing, hv]
        rw [hrf]
        exact ihr

/- ---------- run-wide well-formedness of the output records ---------- -/

def WFout (cfg : Cfg) (st : EState) : Prop :=
  (∀ r ∈ st.out, endp r ∈ st.seen) ∧
  (st.out.map endp).Nodup ∧
  (∀ r ∈ st.out, r.mac = gen_mac cfg.mac_pref r.vm r.eth) ∧
  (∀ r ∈ st.out, r.vm ≤ 999 ∧ r.eth ≤ 9) ∧
  (cfg.auto_pci_addr = false → ∀ r ∈ st.out, ∃ s, r.slot = some s)

theorem WFout_init (cfg : Cfg) : WFout cfg (init_state cfg) := by
  refine ⟨?_, ?_, ?_, ?_, ?_⟩ <;> simp [init_state]

theorem pe_wf_step (cfg : Cfg) (st : EState) (vm eth : Nat) (mac lip : String) (lp : Nat)
    (rip : String) (rp : Nat) (st' : EState)
    (h : process_endpoint cfg st vm eth mac lip lp rip rp = .ok st')
    (hWF : WFout cfg st) (hvm : vm ≤ 999) (heth : eth ≤ 9)
    (hm : mac = gen_mac cfg.mac_pref vm eth) : WFout cfg st' := by
  obtain ⟨hseen, hseen', hup, hpci, r, hout, hrvm, hreth, hrmac, -, -, -, -, hslotc, -⟩ :=
    pe_ok_inv _ _ _ _ _ _ _ _ _ _ h
  obtain ⟨w1, w2, w3, w4, w5⟩ := hWF
  have hnotout : endp r ∉ st.out.map endp := by
    intro hmem
    obtain ⟨r', hr', he⟩ := List.mem_map.mp hmem
    apply hseen
    have := w1 r' hr'
    rw [he] at this
    unfold endp at this
    rw [hrvm, hreth] at this
    exact this
  refine ⟨?_, ?_, ?_, ?_, ?_⟩
  · intro x hx
    rw [hout] at hx
    rw [hseen']
    rcases List.mem_append.mp hx with hx | hx
    · exact List.mem_cons_of_mem _ (w1 x hx)
    · rw [List.mem_singleton.mp hx]
      unfold endp
      rw [hrvm, hreth]
      exact List.mem_cons_self _ _
  · rw [hout, List.map_append]
    rw [List.nodup_append]
    refine ⟨w2, by simp, ?_⟩
    intro x hx
    simp only [List.map_cons, List.map_nil, List.mem_cons, List.not_mem_nil, or_false]
    intro hxe
    apply hnotout
    rw [← hxe]
    exact hx
  · intro x hx
    rw [hout] at hx
    rcases List.mem_append.mp hx with hx | hx
    · exact w3 x hx
    · rw [List.mem_singleton.mp hx]
      rw [hrmac, hrvm, hreth, hm]
  · intro x hx
    rw [hout] at hx
    rcases List.mem_append.mp hx with hx | hx
    · exact w4 x hx
    · rw [List.mem_singleton.mp hx]
      rw [hrvm, hreth]
      exact ⟨hvm, heth⟩
  · intro hauto x hx
    rw [hout] at hx
    rcases List.mem_append.mp hx with hx | hx
    · exact w5 hauto x hx
    · rw [List.mem_singleton.mp hx]
      obtain ⟨s, hs, -⟩ := hslotc hauto
      exact ⟨s, hs⟩

theorem WFout_used_ports (cfg : Cfg) (st : EState) (u : List (Nat × (Nat × Nat)))
    (h : WFout cfg st) : WFout cfg { st with used_ports := u } := h

theorem pl_wf_step (cfg : Cfg) (st : EState) (l : (Nat × Nat) × (Nat × Nat)) (st' : EState)
    (h : process_link cfg st l = .ok st') (hWF : WFout cfg st) : WFout cfg st' := by
  obtain ⟨pA, u1, pB, u2, st1, hA, hB, h1, h2⟩ := pl_ok cfg st l st' h
  obtain ⟨hvmA, hethA, -⟩ := alloc_port_ok _ _ _ _ _ _ hA
  obtain ⟨hvmB, hethB, -⟩ := alloc_port_ok _ _ _ _ _ _ hB
  have hWF1 := pe_wf_step _ _ _ _ _ _ _ _ _ _ h1 (WFout_used_ports cfg st u2 hWF)
    hvmA hethA rfl
  exact pe_wf_step _ _ _ _ _ _ _ _ _ _ h2 hWF1 hvmB hethB rfl

theorem rl_wf (cfg : Cfg) :
    ∀ (ls : List ((Nat × Nat) × (Nat × Nat))) (st stF : EState),
      run_links cfg st ls = .ok stF → WFout cfg st → WFout cfg stF := by
  intro ls
  induction ls with
  | nil =>
    intro st stF h hWF
    cases h
    exact hWF
  | cons l ls ih =>
    intro st stF h hWF
    rw [rl_cons] at h
    split at h
    · cases h
    · rename_i st2 h2
      exact ih st2 stF h (pl_wf_step cfg st l st2 h2 hWF)

/- Existential form of the reuse step, exposing only the state relations the
   simulation argument needs. -/
theorem pe_reuse_spec (cfg : Cfg) (st : EState) (vm eth : Nat) (mac lip : String) (lp : Nat)
    (rip : String) (rp : Nat) (ri rps : Nat)
    (hseen : (vm, eth) ∉ st.seen)
    (hlk : mac_lookup (cfg.existing_nics_by_vm vm) mac = some (ri, rps))
    (hauto : cfg.auto_pci_addr = false) :
    ∃ st', process_endpoint cfg st vm eth mac lip lp rip rp = .ok st' ∧
      st'.seen = (vm, eth) :: st.seen ∧ st'.used_ports = st.used_ports ∧
      st'.out = st.out ++ [⟨vm, eth, mac, ri, some rps, lip, lp, rip, rp, true⟩] ∧
      st'.current_index = st.current_index ∧
      st'.reused_ifaces = st.reused_ifaces ++ [(vm, eth, ri, rps)] :=
  ⟨_, pe_reuse cfg st vm eth mac lip lp rip rp ri rps hseen hlk hauto,
    rfl, rfl, rfl, rfl, rfl⟩

theorem resolved_eq_reused (r : Resolved) (vm eth idx s lp rp : Nat) (mac lip rip : String)
    (h1 : r.vm = vm) (h2 : r.eth = eth) (h3 : r.mac = mac) (h4 : r.idx = idx)
    (h5 : r.slot = some s) (h6 : r.local_ip = lip) (h7 : r.local_port = lp)
    (h8 : r.remote_ip = rip) (h9 : r.remote_port = rp) :
    (⟨vm, eth, mac, idx, some s, lip, lp, rip, rp, true⟩ : Resolved) = reused_true r := by
  cases r
  simp only [reused_true, Resolved.mk.injEq]
  exact ⟨h1.symm, h2.symm, h3.symm, h4.symm, h5.symm, h6.symm, h7.symm, h8.symm, h9.symm, trivial⟩

/- The second-run simulation: with the first run's records visible in the
   existing-interfaces snapshot, every endpoint takes the reuse path and run 2
   reproduces run 1's records verbatim (with reused = true), for any starting
   counters and slot state of run 2. -/
theorem run2_sim (cfg cfg2 : Cfg) (OUT : List Resolved)
    (hmp : cfg2.mac_pref = cfg.mac_pref)
    (hbase : cfg2.udp_port_base = cfg.udp_port_base)
    (hmap : cfg2.udp_map = cfg.udp_map)
    (hdf : cfg2.udp_default_ip = cfg.udp_default_ip)
    (hlb : cfg2.loopback_if_same_host = cfg.loopback_if_same_host)
    (hauto2 : cfg2.auto_pci_addr = false)
    (hex2 : cfg2.existing_nics_by_vm = reflect_existing OUT)
    (hmac : ∀ r ∈ OUT, r.mac = gen_mac cfg.mac_pref r.vm r.eth)
    (hbnd : ∀ r ∈ OUT, r.vm ≤ 999 ∧ r.eth ≤ 9)
    (hnd : (OUT.map endp).Nodup)
    (hslot : ∀ r ∈ OUT, ∃ s, r.slot = some s) :
    ∀ (ls : List ((Nat × Nat) × (Nat × Nat))) (st1 st2 stF : EState),
      run_links cfg st1 ls = .ok stF →
      (∀ r ∈ stF.out, r ∈ OUT) →
      st2.used_ports = st1.used_ports →
      st2.seen = st1.seen →
      ∃ stF2 t, run_links cfg2 st2 ls = .ok stF2 ∧
        stF.out = st1.out ++ t ∧ stF2.out = st2.out ++ t.map reused_true := by
  intro ls
  induction ls with
  | nil =>
    intro st1 st2 stF h hmem hu hs
    cases h
    exact ⟨st2, [], rfl, by simp, by simp⟩
  | cons l ls ih =>
    intro st1 st2 stF h hmem hu hs
    rw [rl_cons] at h
    split at h
    · cases h
    · rename_i stm h2
      obtain ⟨pA, u1, pB, u2, stmid, hA, hB, hpe1, hpe2⟩ := pl_ok cfg st1 l stm h2
      obtain ⟨hsA, hseenA, hupA, -, rA, houtA, hAvm, hAeth, hAmac, hAlip, hAlp, hArip,
        hArp, -, -⟩ := pe_ok_inv _ _ _ _ _ _ _ _ _ _ hpe1
      obtain ⟨hsB, hseenB, hupB, -, rB, houtB, hBvm, hBeth, hBmac, hBlip, hBlp, hBrip,
        hBrp, -, -⟩ := pe_ok_inv _ _ _ _ _ _ _ _ _ _ hpe2
      obtain ⟨t0, ht0⟩ := rl_out_mono cfg ls stm stF h
      have hrAOUT : rA ∈ OUT := by
        apply hmem
        rw [ht0, houtB, houtA]
        simp
      have hrBOUT : rB ∈ OUT := by
        apply hmem
        rw [ht0, houtB]
        simp
      obtain ⟨sA, hsAs⟩ := hslot rA hrAOUT
      obtain ⟨sB, hsBs⟩ := hslot rB hrBOUT
      have hd2 : lead_digit cfg2.udp_port_base = lead_digit cfg.udp_port_base := by
        rw [hbase]
      have hres : resolve_ips cfg2 l.1.1 l.2.1 = resolve_ips cfg l.1.1 l.2.1 := by
        unfold resolve_ips
        rw [hmap, hdf, hlb]
      have e1 : alloc_port (lead_digit cfg2.udp_port_base) st2.used_ports l.1.1 l.1.2 =
          .ok (pA, u1) := by
        rw [hd2, hu]
        exact hA
      have e2 : alloc_port (lead_digit cfg2.udp_port_base) u1 l.2.1 l.2.2 =
          .ok (pB, u2) := by
        rw [hd2]
        exact hB
      have hlkA := reflect_lookup cfg.mac_pref OUT hmac hbnd hnd rA hrAOUT
      rw [hsAs] at hlkA
      simp only [Option.getD_some] at hlkA
      have hlkB := reflect_lookup cfg.mac_pref OUT hmac hbnd hnd rB hrBOUT
      rw [hsBs] at hlkB
      simp only [Option.getD_some] at hlkB
      have hlk2A : mac_lookup (cfg2.existing_nics_by_vm l.1.1)
          (gen_mac cfg2.mac_pref l.1.1 l.1.2) = some (rA.idx, sA) := by
        rw [hmp, hex2, ← hAmac, ← hAvm]
        exact hlkA
      have hlk2B : mac_lookup (cfg2.existing_nics_by_vm l.2.1)
          (gen_mac cfg2.mac_pref l.2.1 l.2.2) = some (rB.idx, sB) := by
        rw [hmp, hex2, ← hBmac, ← hBvm]
        exact hlkB
      have hseen2A : (l.1.1, l.1.2) ∉ ({ st2 with used_ports := u2 } : EState).seen := by
        show (l.1.1, l.1.2) ∉ st2.seen
        rw [hs]
        exact hsA
      obtain ⟨stm2A, hpeA, hsA2, huA2, houtA2, -, -⟩ :=
        pe_reuse_spec cfg2 { st2 with used_ports := u2 } l.1.1 l.1.2
          (gen_mac cfg2.mac_pref l.1.1 l.1.2)
          (resolve_ips cfg2 l.1.1 l.2.1).1 pA (resolve_ips cfg2 l.1.1 l.2.1).2 pB
          rA.idx sA hseen2A hlk2A hauto2
      have hseen2B : (l.2.1, l.2.2) ∉ stm2A.seen := by
        rw [hsA2]
        show (l.2.1, l.2.2) ∉ (l.1.1, l.1.2) :: st2.seen
        rw [hs]
        rw [hseenA] at hsB
        exact hsB
      obtain ⟨stm2B, hpeB, hsB2, huB2, houtB2, -, -⟩ :=
        pe_reuse_spec cfg2 stm2A l.2.1 l.2.2
          (gen_mac cfg2.mac_pref l.2.1 l.2.2)
          (resolve_ips cfg2 l.1.1 l.2.1).2 pB (resolve_ips cfg2 l.1.1 l.2.1).1 pA
          rB.idx sB hseen2B hlk2B hauto2
      have hpl2 : process_link cfg2 st2 l = .ok stm2B := by
        simp only [process_link, e1, e2, hpeA, hpeB]
      have hum : stm.used_ports = u2 := by
        rw [hupB, hupA]
      have hu2 : stm2B.used_ports = stm.used_ports := by
        rw [huB2, huA2, hum]
      have hs2 : stm2B.seen = stm.seen := by
        rw [hsB2, hsA2, hseenB, hseenA]
        show (l.2.1, l.2.2) :: (l.1.1, l.1.2) :: st2.seen =
          (l.2.1, l.2.2) :: (l.1.1, l.1.2) :: st1.seen
        rw [hs]
      obtain ⟨stF2, t, hrun2, htF, htF2⟩ := ih stm stm2B stF h hmem hu2 hs2
      have hrecA : (⟨l.1.1, l.1.2, gen_mac cfg2.mac_pref l.1.1 l.1.2, rA.idx, some sA,
          (resolve_ips cfg2 l.1.1 l.2.1).1, pA, (resolve_ips cfg2 l.1.1 l.2.1).2, pB,
          true⟩ : Resolved) = reused_true rA := by
        apply resolved_eq_reused
        · exact hAvm
        · exact hAeth
        · rw [hmp]
          exact hAmac
        · rfl
        · exact hsAs
        · rw [hres]
          exact hAlip
        · exact hAlp
        · rw [hres]
          exact hArip
        · exact hArp
      have hrecB : (⟨l.2.1, l.2.2, gen_mac cfg2.mac_pref l.2.1 l.2.2, rB.idx, some sB,
          (resolve_ips cfg2 l.1.1 l.2.1).2, pB, (resolve_ips cfg2 l.1.1 l.2.1).1, pA,
          true⟩ : Resolved) = reused_true rB := by
        apply resolved_eq_reused
        · exact hBvm
        · exact hBeth
        · rw [hmp]
          exact hBmac
        · rfl
        · exact hsBs
        · rw [hres]
          exact hBlip
        · exact hBlp
        · rw [hres]
          exact hBrip
        · exact hBrp
      refine ⟨stF2, [rA, rB] ++ t, ?_, ?_, ?_⟩
      · rw [rl_cons, hpl2]
        exact hrun2
      · rw [htF, houtB, houtA]
        show (st1.out ++ [rA]) ++ [rB] ++ t = st1.out ++ ([rA, rB] ++ t)
        simp
      · rw [htF2, houtB2, houtA2, hrecA, hrecB]
        show (st2.out ++ [reused_true rA]) ++ [reused_true rB] ++ t.map reused_true =
          st2.out ++ ([rA, rB] ++ t).map reused_true
        simp

/- ---------- per-VM slot uniqueness across a run (C5 machinery) ---------- -/

def slot_ok (r1 r2 : Resolved) : Prop :=
  r1.vm = r2.vm → r1.reused = false → r2.reused = false → r1.slot ≠ r2.slot

def Inv5 (cfg : Cfg) (st : EState) : Prop :=
  (∀ r ∈ st.out, r.reused = false → cfg.auto_pci_addr = false →
     ∃ s, r.slot = some s ∧ s ∈ st.pci_used r.vm ∧ 2 ≤ s ∧ s < 0x1e) ∧
  List.Pairwise slot_ok st.out

theorem Inv5_init (cfg : Cfg) : Inv5 cfg (init_state cfg) := by
  constructor
  · intro r hr
    cases hr
  · exact List.Pairwise.nil

theorem pe_inv5_step (cfg : Cfg) (st : EState) (vm eth : Nat) (mac lip : String) (lp : Nat)
    (rip : String) (rp : Nat) (st' : EState)
    (h : process_endpoint cfg st vm eth mac lip lp rip rp = .ok st')
    (hauto : cfg.auto_pci_addr = false)
    (hI : Inv5 cfg st) : Inv5 cfg st' := by
  obtain ⟨hseen, hseen', hup, hpci, r, hout, hrvm, hreth, hrmac, -, -, -, -, hslotc,
    hfresh⟩ := pe_ok_inv _ _ _ _ _ _ _ _ _ _ h
  obtain ⟨i1, i2⟩ := hI
  have hnew : ∀ x ∈ st.out, slot_ok x r := by
    intro x hx hvmeq hxf hrf
    obtain ⟨s, hs, hsin, -, -⟩ := i1 x hx hxf hauto
    obtain ⟨s2, hs2, hs2out, -, -⟩ := hfresh hrf hauto
    rw [hs, hs2]
    intro heq
    cases heq
    apply hs2out
    rw [← hrvm, ← hvmeq]
    exact hsin
  constructor
  · intro x hx hxf hauto2
    rw [hout] at hx
    rcases List.mem_append.mp hx with hx | hx
    · obtain ⟨s, hs, hsin, hb1, hb2⟩ := i1 x hx hxf hauto2
      exact ⟨s, hs, hpci _ _ hsin, hb1, hb2⟩
    · rw [List.mem_singleton.mp hx]
      obtain ⟨s2, hs2, -, hb1, hb2⟩ := hfresh (by rw [← List.mem_singleton.mp hx]; exact hxf)
        hauto2
      obtain ⟨s3, hs3, hs3in⟩ := hslotc hauto2
      rw [hs2] at hs3
      cases hs3
      refine ⟨s2, hs2, ?_, hb1, hb2⟩
      rw [hrvm]
      exact hs3in
  · rw [hout]
    rw [List.pairwise_append]
    refine ⟨i2, List.pairwise_singleton _ _, ?_⟩
    intro x hx y hy
    rw [List.mem_singleton.mp hy]
    exact hnew x hx

theorem pl_inv5_step (cfg : Cfg) (st : EState) (l : (Nat × Nat) × (Nat × Nat)) (st' : EState)
    (h : process_link cfg st l = .ok st') (hauto : cfg.auto_pci_addr = false)
    (hI : Inv5 cfg st) : Inv5 cfg st' := by
  obtain ⟨pA, u1, pB, u2, st1, hA, hB, h1, h2⟩ := pl_ok cfg st l st' h
  have hImid : Inv5 cfg { st with used_ports := u2 } := hI
  have hI1 := pe_inv5_step _ _ _ _ _ _ _ _ _ _ h1 hauto hImid
  exact pe_inv5_step _ _ _ _ _ _ _ _ _ _ h2 hauto hI1

theorem rl_inv5 (cfg : Cfg) (hauto : cfg.auto_pci_addr = false) :
    ∀ (ls : List ((Nat × Nat) × (Nat × Nat))) (st stF : EState),
      run_links cfg st ls = .ok stF → Inv5 cfg st → Inv5 cfg stF := by
  intro ls
  induction ls with
  | nil =>
    intro st stF h hI
    cases h
    exact hI
  | cons l ls ih =>
    intro st stF h hI
    rw [rl_cons] at h
    split at h
    · cases h
    · rename_i st2 h2
      exact ih st2 stF h (pl_inv5_step cfg st l st2 h2 hauto hI)

/- ---------- global port-map consistency (C6 machinery) ---------- -/

def port_map_ok (d : Nat) (m : List (Nat × (Nat × Nat))) : Prop :=
  ∀ p e, lookup_port m p = some e → p = port_value d e.1 e.2

theorem lookup_port_cons (q : Nat) (e : Nat × Nat) (m : List (Nat × (Nat × Nat))) (p : Nat) :
    lookup_port ((q, e) :: m) p = if q = p then some e else lookup_port m p := by
  unfold lookup_port
  by_cases h : q = p
  · rw [List.find?_cons_of_pos]
    · simp [h]
    · simp [h]
  · rw [List.find?_cons_of_neg]
    · simp [h]
    · simp [h]

theorem alloc_port_pm (d : Nat) (used : List (Nat × (Nat × Nat))) (vm eth p : Nat)
    (used2 : List (Nat × (Nat × Nat)))
    (h : alloc_port d used vm eth = .ok (p, used2)) (hpm : port_map_ok d used) :
    port_map_ok d used2 := by
  obtain ⟨-, -, hpv, -, hu2, -⟩ := alloc_port_ok _ _ _ _ _ _ h
  rw [hu2]
  intro q e hq
  rw [lookup_port_cons] at hq
  split at hq
  · rename_i hpq
    cases hq
    rw [← hpq, hpv]
  · exact hpm q e hq

theorem pl_pm_step (cfg : Cfg) (st : EState) (l : (Nat × Nat) × (Nat × Nat)) (st' : EState)
    (h : process_link cfg st l = .ok st')
    (hpm : port_map_ok (lead_digit cfg.udp_port_base) st.used_ports) :
    port_map_ok (lead_digit cfg.udp_port_base) st'.used_ports := by
  obtain ⟨pA, u1, pB, u2, st1, hA, hB, h1, h2⟩ := pl_ok cfg st l st' h
  obtain ⟨-, -, hupA, -⟩ := pe_ok_inv _ _ _ _ _ _ _ _ _ _ h1
  obtain ⟨-, -, hupB, -⟩ := pe_ok_inv _ _ _ _ _ _ _ _ _ _ h2
  rw [hupB, hupA]
  show port_map_ok (lead_digit cfg.udp_port_base) u2
  exact alloc_port_pm _ _ _ _ _ _ hB (alloc_port_pm _ _ _ _ _ _ hA hpm)

theorem rl_pm (cfg : Cfg) :
    ∀ (ls : List ((Nat × Nat) × (Nat × Nat))) (st stF : EState),
      run_links cfg st ls = .ok stF →
      port_map_ok (lead_digit cfg.udp_port_base) st.used_ports →
      port_map_ok (lead_digit cfg.udp_port_base) stF.used_ports := by
  intro ls
  induction ls with
  | nil =>
    intro st stF h hpm
    cases h
    exact hpm
  | cons l ls ih =>
    intro st stF h hpm
    rw [rl_cons] at h
    split at h
    · cases h
    · rename_i st2 h2
      exact ih st2 stF h (pl_pm_step cfg st l st2 h2 hpm)

/- ---------- duplicate-endpoint detection (C7 machinery) ---------- -/

/- The endpoints of the topology, in processing order. -/
def endpoints : List ((Nat × Nat) × (Nat × Nat)) → List (Nat × Nat)
  | [] => []
  | l :: ls => l.1 :: l.2 :: endpoints ls

theorem alloc_port_err_not_dup (d : Nat) (used : List (Nat × (Nat × Nat))) (vm eth : Nat)
    (e : EngErr) (h : alloc_port d used vm eth = .error e) : e.isDupError = false := by
  unfold alloc_port at h
  split at h
  · cases h
    rfl
  · split at h
    · cases h
      rfl
    · split at h
      · split at h
        · cases h
          rfl
        · cases h
      · cases h

theorem rl_no_dup_err (cfg : Cfg) :
    ∀ (ls : List ((Nat × Nat) × (Nat × Nat))) (st : EState) (e : EngErr),
      (∀ q ∈ endpoints ls, q ∉ st.seen) → (endpoints ls).Nodup →
      run_links cfg st ls = .error e → e.isDupError = false := by
  intro ls
  induction ls with
  | nil =>
    intro st e hnotin hnd h
    cases h
  | cons l ls ih =>
    obtain ⟨⟨A, Ai⟩, B, Bi⟩ := l
    intro st e hnotin hnd h
    have hend : endpoints (((A, Ai), (B, Bi)) :: ls) = (A, Ai) :: (B, Bi) :: endpoints ls :=
      rfl
    rw [hend] at hnotin hnd
    have h1notin : (A, Ai) ∉ st.seen := hnotin (A, Ai) (by simp)
    have h2notin : (B, Bi) ∉ st.seen := hnotin (B, Bi) (by simp)
    rw [List.nodup_cons, List.nodup_cons] at hnd
    have h12 : (A, Ai) ≠ (B, Bi) := by
      intro he
      apply hnd.1
      rw [he]
      simp
    rw [rl_cons] at h
    split at h
    · rename_i e1 hpl
      cases h
      rcases pl_err cfg st ((A, Ai), (B, Bi)) _ hpl with hC | ⟨pA, u1, -, hC⟩ |
        ⟨pA, u1, pB, u2, -, -, hC⟩ | ⟨pA, u1, pB, u2, st1, -, -, hok1, hC⟩
      · exact alloc_port_err_not_dup _ _ _ _ _ hC
      · exact alloc_port_err_not_dup _ _ _ _ _ hC
      · rcases pe_err _ _ _ _ _ _ _ _ _ _ hC with ⟨-, hin⟩ | ⟨he, -⟩
        · exact absurd hin h1notin
        · rw [he]
          rfl
      · obtain ⟨-, hseen1, -⟩ := pe_ok_inv _ _ _ _ _ _ _ _ _ _ hok1
        rcases pe_err _ _ _ _ _ _ _ _ _ _ hC with ⟨-, hin⟩ | ⟨he, -⟩
        · rw [hseen1] at hin
          rcases List.mem_cons.mp hin with he2 | hin2
          · exact absurd he2.symm h12
          · exact absurd hin2 h2notin
        · rw [he]
          rfl
    · rename_i st2 hpl
      obtain ⟨pA, u1, pB, u2, st1, -, -, hok1, hok2⟩ :=
        pl_ok cfg st ((A, Ai), (B, Bi)) st2 hpl
      obtain ⟨-, hseen1, -⟩ := pe_ok_inv _ _ _ _ _ _ _ _ _ _ hok1
      obtain ⟨-, hseen2, -⟩ := pe_ok_inv _ _ _ _ _ _ _ _ _ _ hok2
      apply ih st2 e _ _ h
      · intro q hq
        rw [hseen2, hseen1]
        intro hmem
        rcases List.mem_cons.mp hmem with he | hmem
        · apply hnd.2.1
          rw [← he]
          exact hq
        · rcases List.mem_cons.mp hmem with he | hmem
          · apply hnd.1
            rw [← he]
            simp [hq]
          · exact hnotin q (by simp [hq]) hmem
      · exact hnd.2.2

/- Port-map well-formedness: every binding is the derived port of its endpoint,
   with a single-digit interface index. -/
def port_map_wf (d : Nat) (m : List (Nat × (Nat × Nat))) : Prop :=
  ∀ p e, lookup_port m p = some e → p = port_value d e.1 e.2 ∧ e.2 ≤ 9

/- A bounded endpoint can never hit the port-collision branch: the port encoding
   is injective, so the registered owner of its port can only be itself. -/
theorem alloc_port_no_collision (d : Nat) (used : List (Nat × (Nat × Nat))) (vm eth : Nat)
    (hvm : vm ≤ 999) (heth : eth ≤ 9) (hport : port_value d vm eth ≤ 65535)
    (hwf : port_map_wf d used) :
    alloc_port d used vm eth =
      .ok (port_value d vm eth, (port_value d vm eth, (vm, eth)) :: used) ∧
    port_map_wf d ((port_value d vm eth, (vm, eth)) :: used) := by
  constructor
  · unfold alloc_port
    rw [if_neg (by omega), if_neg (by omega)]
    cases hlk : lookup_port used (port_value d vm eth) with
    | none => rfl
    | some prev =>
      obtain ⟨hp, hp9⟩ := hwf _ _ hlk
      obtain ⟨h1, h2⟩ := port_value_inj d prev.1 prev.2 vm eth hp9 heth hp.symm
      have hprev : prev = (vm, eth) := Prod.ext_iff.mpr ⟨h1, h2⟩
      subst hprev
      simp
  · intro p e hp
    rw [lookup_port_cons] at hp
    split at hp
    · rename_i hq
      cases hp
      exact ⟨hq.symm, heth⟩
    · exact hwf p e hp

/- With delegated bus addressing, bounded endpoints and a repeated endpoint
   somewhere, the run stops with a DuplicateEndpointError for an endpoint that
   really is repeated. -/
theorem rl_dup_err (cfg : Cfg) (hauto : cfg.auto_pci_addr = true) :
    ∀ (ls : List ((Nat × Nat) × (Nat × Nat))) (st : EState),
      (∀ q ∈ endpoints ls, q.1 ≤ 999 ∧ q.2 ≤ 9 ∧
        port_value (lead_digit cfg.udp_port_base) q.1 q.2 ≤ 65535) →
      port_map_wf (lead_digit cfg.udp_port_base) st.used_ports →
      st.seen.Nodup →
      ¬ (st.seen ++ endpoints ls).Nodup →
      ∃ vm eth, run_links cfg st ls = .error (.dupEndpoint vm eth) ∧
        2 ≤ st.seen.count (vm, eth) + (endpoints ls).count (vm, eth) := by
  intro ls
  induction ls with
  | nil =>
    intro st hb hwf hsnd hdup
    exfalso
    apply hdup
    show (st.seen ++ ([] : List (Nat × Nat))).Nodup
    simpa using hsnd
  | cons l ls ih =>
    obtain ⟨⟨A, Ai⟩, B, Bi⟩ := l
    intro st hb hwf hsnd hdup
    have hend : endpoints (((A, Ai), (B, Bi)) :: ls) = (A, Ai) :: (B, Bi) :: endpoints ls :=
      rfl
    obtain ⟨hA1, hA2, hA3⟩ := hb (A, Ai) (by rw [hend]; simp)
    obtain ⟨hB1, hB2, hB3⟩ := hb (B, Bi) (by rw [hend]; simp)
    obtain ⟨e1, hwf1⟩ :=
      alloc_port_no_collision (lead_digit cfg.udp_port_base) st.used_ports A Ai
        hA1 hA2 hA3 hwf
    obtain ⟨e2, hwf2⟩ :=
      alloc_port_no_collision (lead_digit cfg.udp_port_base) _ B Bi hB1 hB2 hB3 hwf1
    by_cases hC1 : (A, Ai) ∈ st.seen
    · have hpe : process_endpoint cfg
          { st with used_ports :=
              (port_value (lead_digit cfg.udp_port_base) B Bi, (B, Bi)) ::
              (port_value (lead_digit cfg.udp_port_base) A Ai, (A, Ai)) :: st.used_ports }
          A Ai (gen_mac cfg.mac_pref A Ai)
          (resolve_ips cfg A B).1 (port_value (lead_digit cfg.udp_port_base) A Ai)
          (resolve_ips cfg A B).2 (port_value (lead_digit cfg.udp_port_base) B Bi) =
          .error (.dupEndpoint A Ai) :=
        pe_dup cfg _ A Ai _ _ _ _ _ hC1
      refine ⟨A, Ai, ?_, ?_⟩
      · rw [rl_cons]
        simp only [process_link, e1, e2, hpe]
      · have hc1 : 0 < st.seen.count (A, Ai) := List.count_pos_iff.mpr hC1
        rw [hend, List.count_cons_self]
        omega
    · obtain ⟨stA, hokA, hsA, huA⟩ := pe_auto_ok cfg
        { st with used_ports :=
            (port_value (lead_digit cfg.udp_port_base) B Bi, (B, Bi)) ::
            (port_value (lead_digit cfg.udp_port_base) A Ai, (A, Ai)) :: st.used_ports }
        A Ai (gen_mac cfg.mac_pref A Ai)
        (resolve_ips cfg A B).1 (port_value (lead_digit cfg.udp_port_base) A Ai)
        (resolve_ips cfg A B).2 (port_value (lead_digit cfg.udp_port_base) B Bi)
        hC1 hauto
      by_cases hC2 : (B, Bi) ∈ stA.seen
      · have hpeB : process_endpoint cfg stA B Bi (gen_mac cfg.mac_pref B Bi)
            (resolve_ips cfg A B).2 (port_value (lead_digit cfg.udp_port_base) B Bi)
            (resolve_ips cfg A B).1 (port_value (lead_digit cfg.udp_port_base) A Ai) =
            .error (.dupEndpoint B Bi) :=
          pe_dup cfg _ B Bi _ _ _ _ _ hC2
        refine ⟨B, Bi, ?_, ?_⟩
        · rw [rl_cons]
          simp only [process_link, e1, e2, hokA, hpeB]
        · rw [hsA] at hC2
          rw [hend]
          rcases List.mem_cons.mp hC2 with he | hm
          · rw [he, List.count_cons_self, List.count_cons_self]
            omega
          · have hc1 : 0 < st.seen.count (B, Bi) := List.count_pos_iff.mpr hm
            rw [List.count_cons, List.count_cons_self]
            omega
      · obtain ⟨stB, hokB, hsB, huB⟩ := pe_auto_ok cfg stA B Bi (gen_mac cfg.mac_pref B Bi)
          (resolve_ips cfg A B).2 (port_value (lead_digit cfg.udp_port_base) B Bi)
          (resolve_ips cfg A B).1 (port_value (lead_digit cfg.udp_port_base) A Ai)
          hC2 hauto
        have hplok : process_link cfg st ((A, Ai), (B, Bi)) = .ok stB := by
          rw [process_link]
          simp only [e1, e2, hokA, hokB]
        have hp1 : List.Perm (st.seen ++ (A, Ai) :: (B, Bi) :: endpoints ls)
            ((A, Ai) :: (B, Bi) :: (endpoints ls ++ st.seen)) := List.perm_append_comm
        have hp2 : List.Perm ((A, Ai) :: (B, Bi) :: (endpoints ls ++ st.seen))
            ((A, Ai) :: (B, Bi) :: (st.seen ++ endpoints ls)) :=
          List.Perm.cons _ (List.Perm.cons _ List.perm_append_comm)
        have hp3 : List.Perm ((A, Ai) :: (B, Bi) :: (st.seen ++ endpoints ls))
            ((B, Bi) :: (A, Ai) :: (st.seen ++ endpoints ls)) := List.Perm.swap _ _ _
        have hperm : List.Perm (st.seen ++ (A, Ai) :: (B, Bi) :: endpoints ls)
            (((B, Bi) :: (A, Ai) :: st.seen) ++ endpoints ls) :=
          (hp1.trans hp2).trans hp3
        have hwfB : port_map_wf (lead_digit cfg.udp_port_base) stB.used_ports := by
          rw [huB, huA]
          exact hwf2
        have hndB : stB.seen.Nodup := by
          rw [hsB, hsA]
          rw [List.nodup_cons, List.nodup_cons]
          refine ⟨?_, hC1, hsnd⟩
          rw [← hsA]
          exact hC2
        have hdupB : ¬ (stB.seen ++ endpoints ls).Nodup := by
          rw [hsB, hsA]
          intro hnd2
          apply hdup
          rw [hend]
          exact (List.Perm.nodup_iff hperm).mpr hnd2
        obtain ⟨vm, eth, herr, hcount⟩ := ih stB
          (fun q hq => hb q (by rw [hend]; simp [hq])) hwfB hndB hdupB
        refine ⟨vm, eth, ?_, ?_⟩
        · rw [rl_cons, hplok]
          exact herr
        · rw [hsB, hsA] at hcount
          rw [List.count_cons, List.count_cons] at hcount
          dsimp only at hcount
          rw [hend, List.count_cons, List.count_cons]
          omega

/- ---------- final command rendering (source lines 282-284) ---------- -/

def qm_set_cmd (vm : Nat) (args : List String) : String :=
  "qm set " ++ decStr vm ++ " --args \"" ++ String.intercalate (" ") args ++ "\""

/- sorted(per_vm_args): insertion sort on the VM id. -/
def insort (e : Nat × List String) : List (Nat × List String) → List (Nat × List String)
  | [] => [e]
  | x :: xs => if e.1 ≤ x.1 then e :: x :: xs else x :: insort e xs

def sort_pva (l : List (Nat × List String)) : List (Nat × List String) :=
  l.foldr insort []

def render_commands (pva : List (Nat × List String)) : List String :=
  (sort_pva pva).map (fun e => qm_set_cmd e.1 e.2)

/- ---------- max-fold lemmas (C8 machinery) ---------- -/

def int_max_fold (l : List Nat) (init : Int) : Int :=
  l.foldl (fun hi idx => if (idx : Int) > hi then (idx : Int) else hi) init

theorem int_max_fold_init : ∀ (l : List Nat) (init : Int), init ≤ int_max_fold l init := by
  intro l
  induction l with
  | nil =>
    intro init
    exact le_refl _
  | cons x xs ih =>
    intro init
    show init ≤ int_max_fold xs (if (x : Int) > init then (x : Int) else init)
    by_cases hc : (x : Int) > init
    · rw [if_pos hc]
      have := ih (x : Int)
      omega
    · rw [if_neg hc]
      exact ih init

theorem int_max_fold_mem : ∀ (l : List Nat) (init : Int) (i : Nat), i ∈ l →
    (i : Int) ≤ int_max_fold l init := by
  intro l
  induction l with
  | nil =>
    intro init i hi
    cases hi
  | cons x xs ih =>
    intro init i hi
    rcases List.mem_cons.mp hi with rfl | hi
    · show (i : Int) ≤ int_max_fold xs (if (i : Int) > init then (i : Int) else init)
      by_cases hc : (i : Int) > init
      · rw [if_pos hc]
        exact int_max_fold_init xs (i : Int)
      · rw [if_neg hc]
        have := int_max_fold_init xs init
        omega
    · exact ih _ i hi

theorem int_max_fold_attained : ∀ (l : List Nat) (init : Int),
    int_max_fold l init = init ∨ ∃ i ∈ l, int_max_fold l init = (i : Int) := by
  intro l
  induction l with
  | nil =>
    intro init
    exact .inl rfl
  | cons x xs ih =>
    intro init
    by_cases hc : (x : Int) > init
    · have hfold : int_max_fold (x :: xs) init = int_max_fold xs (x : Int) := by
        show int_max_fold xs (if (x : Int) > init then (x : Int) else init) = _
        rw [if_pos hc]
      rcases ih (x : Int) with h | ⟨i, hi, h⟩
      · exact .inr ⟨x, by simp, by rw [hfold, h]⟩
      · exact .inr ⟨i, by simp [hi], by rw [hfold, h]⟩
    · have hfold : int_max_fold (x :: xs) init = int_max_fold xs init := by
        show int_max_fold xs (if (x : Int) > init then (x : Int) else init) = _
        rw [if_neg hc]
      rcases ih init with h | ⟨i, hi, h⟩
      · exact .inl (by rw [hfold, h])
      · exact .inr ⟨i, by simp [hi], by rw [hfold, h]⟩

/- ---------- concrete fixtures for the end-to-end claims ---------- -/

/- The spec's end-to-end configuration: defaults of load_cfg with
   mac_prefix "bc:24:99" (normalized by parse_mac_prefix to be:24:99),
   udp_port_base 40000, and empty prior host state for every VM. -/
def cfgC2 : Cfg :=
  { mac_pref := (190, 36, 153)
    udp_port_base := 40000
    model := "virtio-net-pci"
    host_mtu := 9300
    rxq := 1024
    txq := 256
    udp_map := []
    udp_default_ip := "127.0.0.1"
    loopback_if_same_host := true
    auto_pci_addr := false
    pci_alloc_strategy := "lowest_free"
    existing_nics_by_vm := fun _ => []
    hi_net_index := fun _ => -1
    pci_used0 := fun _ => []
    hi_slot0 := fun _ => -1 }

def linksC2 : List ((Nat × Nat) × (Nat × Nat)) := [((10, 0), (20, 0))]

def out1C2 : List Resolved :=
  [⟨10, 0, "be:24:99:00:0a:00", 0, some 2, "127.0.0.1", 4100, "127.0.0.1", 4200, false⟩,
   ⟨20, 0, "be:24:99:00:14:00", 0, some 2, "127.0.0.1", 4200, "127.0.0.1", 4100, false⟩]

def pvaC2 : List (Nat × List String) :=
  [(10, ["-netdev socket,id=net0,udp=127.0.0.1:4200,localaddr=127.0.0.1:4100",
         "-device virtio-net-pci,mac=be:24:99:00:0a:00,netdev=net0,bus=pci.0,addr=0x2,id=net0,rx_queue_size=1024,tx_queue_size=256,host_mtu=9300"]),
   (20, ["-netdev socket,id=net0,udp=127.0.0.1:4100,localaddr=127.0.0.1:4200",
         "-device virtio-net-pci,mac=be:24:99:00:14:00,netdev=net0,bus=pci.0,addr=0x2,id=net0,rx_queue_size=1024,tx_queue_size=256,host_mtu=9300"])]

/- Second-run configuration for the idempotence witness: identical topology,
   first run's interfaces reflected back as existing state. -/
def cfg2C1 : Cfg := { cfgC2 with existing_nics_by_vm := reflect_existing out1C2 }

/- A configuration whose existing-interfaces snapshot already holds a NIC with
   the MAC the engine would derive for VM 5 eth0 (recorded at net3, slot 0x7). -/
def cfgW : Cfg :=
  { cfgC2 with existing_nics_by_vm :=
      fun vm => if vm = 5 then [(gen_mac (190, 36, 153) 5 0, (3, 7))] else [] }

/- Lead digit 9: ports of the form 9xxx0 can exceed 65535. -/
def cfgC7a : Cfg := { cfgC2 with udp_port_base := 90000 }

/- All usable slots of every VM already occupied in the prior host state. -/
def cfgC7b : Cfg := { cfgC2 with pci_used0 := fun _ => List.range' 2 28 }

/- ==================== claim theorems ==================== -/

/-- C9: for every fixed 3-byte prefix, gen_mac is a function of
(vmId, ifaceIndex) — equal inputs give equal MACs — and is injective for
vmId ≤ 999 and ifaceIndex ≤ 9 (the last three MAC bytes are
high-byte(vmId), low-byte(vmId), ifaceIndex mod 256). -/
theorem C9_mac_deterministic_injective :
    (∀ (mp : Nat × Nat × Nat) (vm ei vm2 ei2 : Nat), vm = vm2 → ei = ei2 →
      gen_mac mp vm ei = gen_mac mp vm2 ei2) ∧
    (∀ (mp : Nat × Nat × Nat) (vm ei vm2 ei2 : Nat),
      vm ≤ 999 → ei ≤ 9 → vm2 ≤ 999 → ei2 ≤ 9 →
      gen_mac mp vm ei = gen_mac mp vm2 ei2 → vm = vm2 ∧ ei = ei2) := by
  constructor
  · intro mp vm ei vm2 ei2 h1 h2
    rw [h1, h2]
  · intro mp vm ei vm2 ei2 h1 h2 h3 h4 h
    exact gen_mac_inj_bounded mp vm ei vm2 ei2 h1 h2 h3 h4 h

theorem C9_witness :
    gen_mac (190, 36, 153) 10 0 = gen_mac (190, 36, 153) 10 0 ∧ (10 = 10 ∧ 0 = 0) :=
  ⟨C9_mac_deterministic_injective.1 (190, 36, 153) 10 0 10 0 rfl rfl,
   C9_mac_deterministic_injective.2 (190, 36, 153) 10 0 10 0 (by decide) (by decide)
     (by decide) (by decide) rfl⟩

/-- C10 (implicit): gen_mac is total and truncating outside the documented
bounds — for every vmId and ifaceIndex it returns the same MAC as for
vmId mod 65536 and ifaceIndex mod 256, so out-of-range identifiers silently
alias to in-range MACs instead of raising. -/
theorem C10_mac_truncation :
    ∀ (mp : Nat × Nat × Nat) (vm ei : Nat),
      gen_mac mp vm ei = gen_mac mp (vm % 65536) (ei % 256) :=
  gen_mac_truncate

/-- C3: the port allocated for an endpoint is the integer parse of the decimal
concatenation of the lead digit, the unpadded vmId and the ifaceIndex, and
alloc_port fails with a RangeError exactly when vmId > 999, ifaceIndex > 9, or
that integer exceeds 65535. -/
theorem C3_port_derivation :
    (∀ (d : Nat) (used : List (Nat × (Nat × Nat))) (vm eth p : Nat)
        (used2 : List (Nat × (Nat × Nat))),
      alloc_port d used vm eth = .ok (p, used2) →
      p = int_of_decimal (decStr d ++ decStr vm ++ decStr eth)) ∧
    (∀ (d : Nat) (used : List (Nat × (Nat × Nat))) (vm eth : Nat),
      (∃ e, alloc_port d used vm eth = .error e ∧ e.isRangeError = true) ↔
      (vm > 999 ∨ eth > 9 ∨
        int_of_decimal (decStr d ++ decStr vm ++ decStr eth) > 65535)) := by
  constructor
  · intro d used vm eth p used2 h
    obtain ⟨-, -, hp, -⟩ := alloc_port_ok d used vm eth p used2 h
    exact hp
  · intro d used vm eth
    exact alloc_port_range_iff d used vm eth

theorem C3_witness :
    (4100 = int_of_decimal (decStr 4 ++ decStr 10 ++ decStr 0)) ∧
    (700 > 999 ∨ 0 > 9 ∨ int_of_decimal (decStr 9 ++ decStr 700 ++ decStr 0) > 65535) :=
  ⟨C3_port_derivation.1 4 [] 10 0 4100 [(4100, (10, 0))] (by decide),
   (C3_port_derivation.2 9 [] 700 0).mp ⟨.portOutOfRange 97000, by decide, by decide⟩⟩

/-- C4: when bus addressing is not delegated, the slot allocator conforms to
the selected strategy — lowest_free returns the smallest free slot of the
usable range 0x02–0x1d; next_highest returns the first free slot scanning
upward from just above the highest slot ever seen, falling back to the
lowest_free scan when that path has no free slot; it returns nothing exactly
when the usable range is exhausted, and the engine then fails with a
SlotExhaustionError naming the VM. -/
theorem C4_slot_strategy :
    (∀ (used : List Nat) (highest : Int) (a : Nat) (used2 : List Nat) (h2 : Int),
      alloc_pci ("lowest_free") used highest = some (a, used2, h2) →
      used.contains a = false ∧ 2 ≤ a ∧ a < 0x1e ∧
      ∀ b, 2 ≤ b → b < a → used.contains b = true) ∧
    (∀ (used : List Nat) (highest : Int) (a : Nat) (used2 : List Nat) (h2 : Int),
      alloc_pci ("next_highest") used highest = some (a, used2, h2) →
      (((max (highest + 1) 2).toNat ≤ a ∧ a < 0x1e ∧ used.contains a = false ∧
         ∀ b, (max (highest + 1) 2).toNat ≤ b → b < a → used.contains b = true) ∨
       ((∀ b, (max (highest + 1) 2).toNat ≤ b → b < 0x1e → used.contains b = true) ∧
         used.contains a = false ∧ 2 ≤ a ∧ a < 0x1e ∧
         ∀ b, 2 ≤ b → b < a → used.contains b = true))) ∧
    (∀ (strat : String) (used : List Nat) (highest : Int),
      alloc_pci strat used highest = none ↔
      ∀ b, 2 ≤ b → b < 0x1e → used.contains b = true) ∧
    (∀ (cfg : Cfg) (st : EState) (vm eth : Nat) (mac lip : String) (lp : Nat)
        (rip : String) (rp : Nat),
      (vm, eth) ∉ st.seen →
      mac_lookup (cfg.existing_nics_by_vm vm) mac = none →
      cfg.auto_pci_addr = false →
      alloc_pci cfg.pci_alloc_strategy (st.pci_used vm) (st.highest_nic_slot vm) = none →
      process_endpoint cfg st vm eth mac lip lp rip rp = .error (.slotExhaustion vm)) :=
  ⟨fun used highest a used2 h2 h => alloc_pci_lowest_free used highest a used2 h2 h,
   fun used highest a used2 h2 h => alloc_pci_next_highest used highest a used2 h2 h,
   fun strat used highest => alloc_pci_none_iff strat used highest,
   fun cfg st vm eth mac lip lp rip rp h1 h2 h3 h4 =>
     pe_exhaust cfg st vm eth mac lip lp rip rp h1 h2 h3 h4⟩

theorem C4_witness :
    ((([30, 31] : List Nat).contains 2 = false ∧ 2 ≤ 2 ∧ 2 < 0x1e ∧
       ∀ b, 2 ≤ b → b < 2 → (([30, 31] : List Nat).contains b) = true) ∧
     alloc_pci ("lowest_free") (List.range' 2 28) 5 = none ∧
     process_endpoint cfgC7b (init_state cfgC7b) 1 0 ("aa") ("i") 0 ("j") 0 =
       .error (.slotExhaustion 1)) ∧
    (((max ((16 : Int) + 1) 2).toNat ≤ 17 ∧ 17 < 0x1e ∧
        (([16, 30, 31] : List Nat).contains 17) = false ∧
        ∀ b, (max ((16 : Int) + 1) 2).toNat ≤ b → b < 17 →
          (([16, 30, 31] : List Nat).contains b) = true) ∨
     ((∀ b, (max ((16 : Int) + 1) 2).toNat ≤ b → b < 0x1e →
         (([16, 30, 31] : List Nat).contains b) = true) ∧
       (([16, 30, 31] : List Nat).contains 17) = false ∧ 2 ≤ 17 ∧ 17 < 0x1e ∧
       ∀ b, 2 ≤ b → b < 17 → (([16, 30, 31] : List Nat).contains b) = true)) :=
  ⟨⟨C4_slot_strategy.1 [30, 31] (-1) 2 [2, 30, 31] 2 (by decide),
    (C4_slot_strategy.2.2.1 ("lowest_free") (List.range' 2 28) 5).mpr (by decide),
    C4_slot_strategy.2.2.2 cfgC7b (init_state cfgC7b) 1 0 ("aa") ("i") 0 ("j") 0
      (by decide) (by decide) rfl (by decide)⟩,
   C4_slot_strategy.2.1 [16, 30, 31] 16 17 [17, 16, 30, 31] 17 (by decide)⟩

def cmdsC2 : List String :=
  ["qm set 10 --args \"-netdev socket,id=net0,udp=127.0.0.1:4200,localaddr=127.0.0.1:4100 -device virtio-net-pci,mac=be:24:99:00:0a:00,netdev=net0,bus=pci.0,addr=0x2,id=net0,rx_queue_size=1024,tx_queue_size=256,host_mtu=9300\"",
   "qm set 20 --args \"-netdev socket,id=net0,udp=127.0.0.1:4100,localaddr=127.0.0.1:4200 -device virtio-net-pci,mac=be:24:99:00:14:00,netdev=net0,bus=pci.0,addr=0x2,id=net0,rx_queue_size=1024,tx_queue_size=256,host_mtu=9300\""]

/-- C2 counterexample: on the spec's end-to-end input the engine does not
produce MAC bc:24:99:00:0a:00 — parse_mac_prefix sets the locally-administered
bit of the configured prefix bc:24:99, giving be:24:99, so the two derived MACs
start with be:24:99. -/
theorem C2_counterexample :
    parse_mac_prefix ("bc:24:99") = some (190, 36, 153) ∧
    (run_links cfgC2 (init_state cfgC2) linksC2).map
        (fun st => st.out.map Resolved.mac) =
      .ok ["be:24:99:00:0a:00", "be:24:99:00:14:00"] ∧
    ("be:24:99:00:0a:00" : String) ≠ "bc:24:99:00:0a:00" :=
  ⟨by decide, by decide, by decide⟩

set_option maxRecDepth 8192 in
/-- C2 (amended): for the topology [(10, 0, 20, 0)] with port-base lead digit 4,
configured MAC prefix bc:24:99 (normalized to be:24:99) and empty prior host
state, the engine produces MAC be:24:99:00:0a:00 for VM 10 and
be:24:99:00:14:00 for VM 20, local ports 4100 and 4200, device index 0 for each
endpoint, slot 0x2 on each VM, and two mirrored per-VM commands. -/
theorem C2_end_to_end :
    parse_mac_prefix ("bc:24:99") = some (190, 36, 153) ∧
    lead_digit cfgC2.udp_port_base = 4 ∧
    (run_links cfgC2 (init_state cfgC2) linksC2).map
        (fun st => (st.out, render_commands st.per_vm_args)) =
      .ok (out1C2, cmdsC2) :=
  ⟨by decide, by decide, by decide⟩

/-- C5: every fresh bus-slot allocation returns a slot in 0x02–0x1d that is not
yet in the VM's used-slot set and adds it to the set, so a second allocation can
never return the same slot; the used-slot set is pre-seeded with the reserved
slots 0x1e and 0x1f; and over a whole run, no VM's fresh interfaces ever share
a slot, and no fresh interface gets a reserved slot. -/
theorem C5_slot_invariant :
    (∀ (strat : String) (used : List Nat) (highest : Int) (a : Nat) (used2 : List Nat)
        (h2 : Int), alloc_pci strat used highest = some (a, used2, h2) →
      2 ≤ a ∧ a < 0x1e ∧ a ∉ used ∧ used2 = a :: used ∧
      (∀ (highest3 : Int) (b : Nat) (u3 : List Nat) (h3 : Int),
        alloc_pci strat used2 highest3 = some (b, u3, h3) → b ≠ a)) ∧
    (∀ (cfg : Cfg) (vm : Nat), 0x1e ∈ (init_state cfg).pci_used vm ∧
      0x1f ∈ (init_state cfg).pci_used vm) ∧
    (∀ (cfg : Cfg) (ls : List ((Nat × Nat) × (Nat × Nat))) (out : List Resolved),
      cfg.auto_pci_addr = false →
      engine_out cfg (init_state cfg) ls = .ok out →
      List.Pairwise slot_ok out ∧
      ∀ r ∈ out, r.reused = false →
        ∃ s, r.slot = some s ∧ 2 ≤ s ∧ s < 0x1e ∧ s ≠ 0x1e ∧ s ≠ 0x1f) := by
  refine ⟨?_, ?_, ?_⟩
  · intro strat used highest a used2 h2 h
    obtain ⟨ha1, ha2, hfree, hu2, -⟩ := alloc_pci_ok strat used highest a used2 h2 h
    refine ⟨ha1, ha2, contains_false_iff.mp hfree, hu2, ?_⟩
    intro highest3 b u3 h3 hb
    obtain ⟨-, -, hbfree, -⟩ := alloc_pci_ok strat used2 highest3 b u3 h3 hb
    intro hba
    rw [hba, hu2] at hbfree
    rw [contains_false_iff] at hbfree
    exact hbfree (List.mem_cons_self _ _)
  · intro cfg vm
    constructor
    · exact List.mem_cons_self _ _
    · exact List.mem_cons_of_mem _ (List.mem_cons_self _ _)
  · intro cfg ls out hauto hout
    unfold engine_out at hout
    cases hrun : run_links cfg (init_state cfg) ls with
    | error e =>
      rw [hrun] at hout
      cases hout
    | ok stF =>
      rw [hrun] at hout
      simp only [Except.map] at hout
      cases hout
      obtain ⟨i1, i2⟩ := rl_inv5 cfg hauto ls (init_state cfg) stF hrun (Inv5_init cfg)
      refine ⟨i2, ?_⟩
      intro r hr hrf
      obtain ⟨s, hs, -, hb1, hb2⟩ := i1 r hr hrf hauto
      exact ⟨s, hs, hb1, hb2, by omega, by omega⟩

theorem C5_witness :
    (2 ≤ 2 ∧ 2 < 0x1e ∧ 2 ∉ ([30, 31] : List Nat) ∧
      ([2, 30, 31] : List Nat) = 2 :: [30, 31] ∧
      (∀ (highest3 : Int) (b : Nat) (u3 : List Nat) (h3 : Int),
        alloc_pci ("lowest_free") [2, 30, 31] highest3 = some (b, u3, h3) → b ≠ 2)) ∧
    (0x1e ∈ (init_state cfgC2).pci_used 10 ∧ 0x1f ∈ (init_state cfgC2).pci_used 10) ∧
    List.Pairwise slot_ok out1C2 :=
  ⟨C5_slot_invariant.1 ("lowest_free") [30, 31] (-1) 2 [2, 30, 31] 2 (by decide),
   C5_slot_invariant.2.1 cfgC2 10,
   (C5_slot_invariant.2.2 cfgC2 linksC2 out1C2 rfl (by decide)).1⟩

def engine_ports (cfg : Cfg) (st : EState) (ls : List ((Nat × Nat) × (Nat × Nat))) :
    Except EngErr (List (Nat × (Nat × Nat))) :=
  (run_links cfg st ls).map EState.used_ports

/-- C6: a port already registered to a different endpoint makes alloc_port fail
with a PortCollisionError naming both VM/interface pairs; a successful
allocation registers the port in the run-wide map; and in a successful run
every registered port is the derived port of its owner, so distinct ports
belong to distinct endpoints (the map never binds two ports to one endpoint). -/
theorem C6_port_uniqueness :
    (∀ (d : Nat) (used : List (Nat × (Nat × Nat))) (vm eth : Nat) (prev : Nat × Nat),
      vm ≤ 999 → eth ≤ 9 → port_value d vm eth ≤ 65535 →
      lookup_port used (port_value d vm eth) = some prev → prev ≠ (vm, eth) →
      alloc_port d used vm eth =
        .error (.portCollision (port_value d vm eth) vm eth prev.1 prev.2)) ∧
    (∀ (d : Nat) (used : List (Nat × (Nat × Nat))) (vm eth p : Nat)
        (used2 : List (Nat × (Nat × Nat))),
      alloc_port d used vm eth = .ok (p, used2) →
      used2 = (p, (vm, eth)) :: used ∧ lookup_port used2 p = some (vm, eth)) ∧
    (∀ (cfg : Cfg) (ls : List ((Nat × Nat) × (Nat × Nat)))
        (m : List (Nat × (Nat × Nat))),
      engine_ports cfg (init_state cfg) ls = .ok m →
      (∀ p e, lookup_port m p = some e →
        p = port_value (lead_digit cfg.udp_port_base) e.1 e.2) ∧
      (∀ p1 p2 e, lookup_port m p1 = some e → lookup_port m p2 = some e →
        p1 = p2)) := by
  refine ⟨?_, ?_, ?_⟩
  · intro d used vm eth prev h1 h2 h3 hlk hne
    exact alloc_port_collision d used vm eth prev h1 h2 h3 hlk hne
  · intro d used vm eth p used2 h
    obtain ⟨-, -, -, -, hu2, -⟩ := alloc_port_ok d used vm eth p used2 h
    exact ⟨hu2, alloc_port_registers d used vm eth p used2 h⟩
  · intro cfg ls m hm
    unfold engine_ports at hm
    cases hrun : run_links cfg (init_state cfg) ls with
    | error e =>
      rw [hrun] at hm
      cases hm
    | ok stF =>
      rw [hrun] at hm
      simp only [Except.map] at hm
      cases hm
      have hbase : port_map_ok (lead_digit cfg.udp_port_base)
          (init_state cfg).used_ports := by
        intro p e h
        simp [lookup_port, init_state] at h
      have hpm := rl_pm cfg ls (init_state cfg) stF hrun hbase
      refine ⟨hpm, ?_⟩
      intro p1 p2 e h1 h2
      rw [hpm p1 e h1, hpm p2 e h2]

theorem C6_witness :
    (alloc_port 4 [(4100, (9, 9))] 10 0 =
      .error (.portCollision 4100 10 0 9 9)) ∧
    (([(4100, (10, 0))] : List (Nat × (Nat × Nat))) = (4100, (10, 0)) :: [] ∧
      lookup_port [(4100, (10, 0))] 4100 = some (10, 0)) ∧
    (4100 = port_value (lead_digit cfgC2.udp_port_base) (10, 0).1 (10, 0).2) := by
  refine ⟨?_, ?_, ?_⟩
  · have h := C6_port_uniqueness.1 4 [(4100, (9, 9))] 10 0 (9, 9)
      (by decide) (by decide) (by decide) (by decide) (by decide)
    exact h
  · exact C6_port_uniqueness.2.1 4 [] 10 0 4100 [(4100, (10, 0))] (by decide)
  · exact (C6_port_uniqueness.2.2 cfgC2 linksC2 [(4200, (20, 0)), (4100, (10, 0))]
      (by decide)).1 4100 (10, 0) (by decide)

/-- C1: idempotence via MAC-based reuse.  (a) An endpoint whose derived MAC is
a key of the VM's existing-interfaces snapshot gets exactly the recorded device
index and bus slot, is marked reused, and does not advance the VM's
next-device-index counter.  (b) Re-running the engine on the same topology with
the first run's interfaces reflected back as existing state succeeds and yields
the first run's records verbatim — identical device indices and bus slots for
every endpoint — whatever the second run's counters and slot snapshots are. -/
theorem C1_idempotence :
    (∀ (cfg : Cfg) (st : EState) (vm eth ri rps lp rp : Nat) (lip rip : String),
      cfg.auto_pci_addr = false →
      (vm, eth) ∉ st.seen →
      mac_lookup (cfg.existing_nics_by_vm vm) (gen_mac cfg.mac_pref vm eth) =
        some (ri, rps) →
      ∃ st', process_endpoint cfg st vm eth (gen_mac cfg.mac_pref vm eth)
          lip lp rip rp = .ok st' ∧
        st'.out = st.out ++ [⟨vm, eth, gen_mac cfg.mac_pref vm eth, ri, some rps,
          lip, lp, rip, rp, true⟩] ∧
        st'.current_index = st.current_index ∧
        st'.reused_ifaces = st.reused_ifaces ++ [(vm, eth, ri, rps)]) ∧
    (∀ (cfg cfg2 : Cfg) (links : List ((Nat × Nat) × (Nat × Nat)))
        (out1 : List Resolved),
      cfg.auto_pci_addr = false →
      engine_out cfg (init_state cfg) links = .ok out1 →
      cfg2.mac_pref = cfg.mac_pref →
      cfg2.udp_port_base = cfg.udp_port_base →
      cfg2.udp_map = cfg.udp_map →
      cfg2.udp_default_ip = cfg.udp_default_ip →
      cfg2.loopback_if_same_host = cfg.loopback_if_same_host →
      cfg2.auto_pci_addr = false →
      cfg2.existing_nics_by_vm = reflect_existing out1 →
      engine_out cfg2 (init_state cfg2) links = .ok (out1.map reused_true)) := by
  constructor
  · intro cfg st vm eth ri rps lp rp lip rip hauto hseen hlk
    obtain ⟨st', hok, hseen', hup, hout, hci, hri⟩ :=
      pe_reuse_spec cfg st vm eth (gen_mac cfg.mac_pref vm eth) lip lp rip rp ri rps
        hseen hlk hauto
    exact ⟨st', hok, hout, hci, hri⟩
  · intro cfg cfg2 links out1 hauto hout hmp hbase hmap hdf hlb hauto2 hex2
    unfold engine_out at hout
    cases hrun : run_links cfg (init_state cfg) links with
    | error e =>
      rw [hrun] at hout
      cases hout
    | ok stF =>
      rw [hrun] at hout
      simp only [Except.map] at hout
      cases hout
      obtain ⟨w1, w2, w3, w4, w5⟩ :=
        rl_wf cfg links (init_state cfg) stF hrun (WFout_init cfg)
      obtain ⟨stF2, t, hrun2, htF, htF2⟩ :=
        run2_sim cfg cfg2 stF.out hmp hbase hmap hdf hlb hauto2 hex2 w3 w4 w2
          (w5 hauto) links (init_state cfg) (init_state cfg2) stF hrun
          (fun r hr => hr) rfl rfl
      have ht : t = stF.out := by
        have : stF.out = ([] : List Resolved) ++ t := htF
        simpa using this.symm
      unfold engine_out
      rw [hrun2]
      simp only [Except.map]
      rw [htF2, ht]
      rfl

theorem C1_witness :
    (∃ st', process_endpoint cfgW (init_state cfgW) 5 0 (gen_mac cfgW.mac_pref 5 0)
        ("127.0.0.1") 4050 ("127.0.0.1") 4060 = .ok st' ∧
      st'.out = (init_state cfgW).out ++ [⟨5, 0, gen_mac cfgW.mac_pref 5 0, 3, some 7,
        "127.0.0.1", 4050, "127.0.0.1", 4060, true⟩] ∧
      st'.current_index = (init_state cfgW).current_index ∧
      st'.reused_ifaces = (init_state cfgW).reused_ifaces ++ [(5, 0, 3, 7)]) ∧
    engine_out cfg2C1 (init_state cfg2C1) linksC2 = .ok (out1C2.map reused_true) :=
  ⟨C1_idempotence.1 cfgW (init_state cfgW) 5 0 3 7 4050 4060 ("127.0.0.1")
     ("127.0.0.1") rfl (by decide) (by decide),
   C1_idempotence.2 cfgC2 cfg2C1 linksC2 out1C2 rfl (by decide) rfl rfl rfl rfl rfl
     rfl rfl⟩

/- Delegated bus addressing for the C7 witness runs. -/
def cfgC7auto : Cfg := { cfgC2 with auto_pci_addr := true }

/-- C7 counterexample: the claim as stated fails on the code in two ways.
With port-base lead digit 9, the bounded duplicate topology
[((700,0),(700,0))] aborts with the port range error (97000 > 65535) before
the duplicate check; and with prior host state occupying every usable bus slot,
the bounded duplicate topology [((1,0),(2,0)), ((1,1),(1,1))] aborts with
SlotExhaustionError before reaching its duplicate. -/
theorem C7_counterexample :
    (∀ q ∈ endpoints [((700, 0), (700, 0))], q.1 ≤ 999 ∧ q.2 ≤ 9) ∧
    ¬ (endpoints [((700, 0), (700, 0))]).Nodup ∧
    run_links cfgC7a (init_state cfgC7a) [((700, 0), (700, 0))] =
      .error (.portOutOfRange 97000) ∧
    (EngErr.portOutOfRange 97000).isDupError = false ∧
    (∀ q ∈ endpoints [((1, 0), (2, 0)), ((1, 1), (1, 1))], q.1 ≤ 999 ∧ q.2 ≤ 9 ∧
      port_value (lead_digit cfgC7b.udp_port_base) q.1 q.2 ≤ 65535) ∧
    ¬ (endpoints [((1, 0), (2, 0)), ((1, 1), (1, 1))]).Nodup ∧
    run_links cfgC7b (init_state cfgC7b) [((1, 0), (2, 0)), ((1, 1), (1, 1))] =
      .error (.slotExhaustion 1) ∧
    (EngErr.slotExhaustion 1).isDupError = false := by
  refine ⟨by decide, by decide, rfl, rfl, by decide, by decide, rfl, rfl⟩

/-- C7 (amended): provided every endpoint satisfies vmId ≤ 999, ifaceIndex ≤ 9
and its derived port is ≤ 65535, and bus addressing is delegated to the
hypervisor, a topology with a repeated endpoint makes the run fail with a
DuplicateEndpointError naming an endpoint that occurs more than once; and —
without any side condition — no run on a topology without a repeated endpoint
ever fails with a DuplicateEndpointError. -/
theorem C7_duplicate_detection :
    (∀ (cfg : Cfg) (ls : List ((Nat × Nat) × (Nat × Nat))),
      cfg.auto_pci_addr = true →
      (∀ q ∈ endpoints ls, q.1 ≤ 999 ∧ q.2 ≤ 9 ∧
        port_value (lead_digit cfg.udp_port_base) q.1 q.2 ≤ 65535) →
      ¬ (endpoints ls).Nodup →
      ∃ vm eth, run_links cfg (init_state cfg) ls = .error (.dupEndpoint vm eth) ∧
        2 ≤ (endpoints ls).count (vm, eth)) ∧
    (∀ (cfg : Cfg) (ls : List ((Nat × Nat) × (Nat × Nat))) (e : EngErr),
      (endpoints ls).Nodup →
      run_links cfg (init_state cfg) ls = .error e → e.isDupError = false) := by
  constructor
  · intro cfg ls hauto hb hnd
    have hwf : port_map_wf (lead_digit cfg.udp_port_base)
        (init_state cfg).used_ports := by
      intro p e h
      simp [lookup_port, init_state] at h
    have hsnd : (init_state cfg).seen.Nodup := List.Pairwise.nil
    have hdup : ¬ ((init_state cfg).seen ++ endpoints ls).Nodup := by
      simpa [init_state] using hnd
    obtain ⟨vm, eth, herr, hcnt⟩ :=
      rl_dup_err cfg hauto ls (init_state cfg) hb hwf hsnd hdup
    refine ⟨vm, eth, herr, ?_⟩
    simpa [init_state] using hcnt
  · intro cfg ls e hnd h
    exact rl_no_dup_err cfg ls (init_state cfg) e (fun q hq => by simp [init_state])
      hnd h

theorem C7_witness :
    (∃ vm eth, run_links cfgC7auto (init_state cfgC7auto) [((1, 0), (1, 0))] =
       .error (.dupEndpoint vm eth) ∧
       2 ≤ (endpoints [((1, 0), (1, 0))]).count (vm, eth)) ∧
    (EngErr.slotExhaustion 1).isDupError = false :=
  ⟨C7_duplicate_detection.1 cfgC7auto [((1, 0), (1, 0))] rfl (by decide) (by decide),
   C7_duplicate_detection.2 cfgC7b [((1, 0), (2, 0))] (.slotExhaustion 1) (by decide)
     rfl⟩

/-- C8: host-state reading is total and degrades to defaults: a missing config
file (or one without net lines) gives next free device index 0, the maximum
matching index + 1 otherwise; a failing qm showcmd query gives the empty
per-VM state (no used slots beyond the reserved ones, no interfaces by MAC);
and output in which the scans match nothing also gives the empty state. -/
theorem C8_host_reader_defaults :
    (highest_existing_net_index none = -1) ∧
    (∀ txt : String, (splitLines txt.data).filterMap netLineIndex = [] →
      highest_existing_net_index (some txt) + 1 = 0) ∧
    (∀ txt : String, ∀ i ∈ (splitLines txt.data).filterMap netLineIndex,
      (i : Int) ≤ highest_existing_net_index (some txt)) ∧
    (∀ txt : String, (splitLines txt.data).filterMap netLineIndex ≠ [] →
      ∃ i ∈ (splitLines txt.data).filterMap netLineIndex,
        highest_existing_net_index (some txt) = (i : Int)) ∧
    (∀ conf : Option String, -1 ≤ highest_existing_net_index conf) ∧
    (∀ res : Int × String, res.1 ≠ 0 →
      pci_info res = ([], -1) ∧ collect_existing_nics res = []) ∧
    (∀ out : String, scanPciAddrs out.data = [] → scanNetdevAddrs out.data = [] →
      pci_info (0, out) = ([], -1)) := by
  refine ⟨rfl, ?_, ?_, ?_, ?_, ?_, ?_⟩
  · intro txt h
    show int_max_fold ((splitLines txt.data).filterMap netLineIndex) (-1) + 1 = 0
    rw [h]
    rfl
  · intro txt i hi
    exact int_max_fold_mem _ _ i hi
  · intro txt hne
    rcases int_max_fold_attained ((splitLines txt.data).filterMap netLineIndex) (-1)
      with h | ⟨i, hi, h⟩
    · exfalso
      obtain ⟨i, hi⟩ := List.exists_mem_of_ne_nil _ hne
      have hle := int_max_fold_mem ((splitLines txt.data).filterMap netLineIndex)
        (-1) i hi
      rw [h] at hle
      omega
    · exact ⟨i, hi, h⟩
  · intro conf
    cases conf with
    | none => exact le_refl _
    | some txt => exact int_max_fold_init _ _
  · intro res h
    constructor
    · unfold pci_info
      rw [if_pos h]
    · unfold collect_existing_nics
      rw [if_pos h]
  · intro out h1 h2
    unfold pci_info
    rw [if_neg (by simp)]
    rw [h1, h2]
    rfl

theorem C8_witness :
    (highest_existing_net_index (some ("hello")) + 1 = 0) ∧
    ((3 : Int) ≤ highest_existing_net_index (some ("net3: virtio"))) ∧
    (∃ i ∈ (splitLines ("net3: virtio").data).filterMap netLineIndex,
      highest_existing_net_index (some ("net3: virtio")) = (i : Int)) ∧
    (pci_info (1, "x") = ([], -1) ∧ collect_existing_nics (1, "x") = []) ∧
    pci_info (0, "nothing") = ([], -1) :=
  ⟨C8_host_reader_defaults.2.1 ("hello") (by decide),
   C8_host_reader_defaults.2.2.1 ("net3: virtio") 3 (by decide),
   C8_host_reader_defaults.2.2.2.1 ("net3: virtio") (by decide),
   C8_host_reader_defaults.2.2.2.2.2.1 (1, "x") (by decide),
   C8_host_reader_defaults.2.2.2.2.2.2 ("nothing") (by decide) (by decide)⟩

end PveLinks
